import Mathlib

set_option maxRecDepth 100000

/-!
Shallow embedding of the floralcraft voxel-engine core, together with
proofs checking the natural-language specification against the code.

Machine integers are modelled as `Nat`/`Int`; `u64` words carry an
explicit `< 2 ^ 64` bound where overflow matters.  Rust `Vec`s are
modelled as `List`s and fixed-size arrays as index functions.
-/

namespace Floralcraft

/-- Two-component integer vector, the `glam::IVec2` used for chunk positions. -/
structure IVec2 where
  x : Int
  y : Int
deriving DecidableEq, Repr

/-- Three-component integer vector, the `glam::IVec3` used for block positions. -/
structure IVec3 where
  x : Int
  y : Int
  z : Int
deriving DecidableEq, Repr

instance : Add IVec2 := ⟨fun a b => ⟨a.x + b.x, a.y + b.y⟩⟩

instance : Add IVec3 := ⟨fun a b => ⟨a.x + b.x, a.y + b.y, a.z + b.z⟩⟩

namespace Terrain

/-! ### src/terrain/chunk.rs: constants and the flat-array `Chunk` -/

def CHUNK_WIDTH : Nat := 16

def CHUNK_HEIGHT : Nat := 16

def CHUNK_DEPTH : Nat := 16

def CHUNK_VOLUME : Nat := CHUNK_WIDTH * CHUNK_HEIGHT * CHUNK_DEPTH

/-- Block identifiers from `src/terrain/block.rs` (`#[repr(u8)] enum Block`). -/
inductive Block where
  | Air
  | Grass
  | Dirt
  | Stone
  | Bedrock
  | Missing
deriving DecidableEq, Repr

/-- The `Chunk` of `src/terrain/chunk.rs`: a plain array of blocks plus
4-bit packed light channels (two voxels per byte) and a bit-packed
exposure array.  Arrays are modelled as index functions. -/
structure Chunk where
  pos : IVec2
  blocks : Nat → Block
  sky_light : Nat → Nat
  block_light : Nat → Nat
  exposed_blocks : Nat → Nat

/-- `Chunk::new`: every voxel is air, all packed arrays are zero. -/
def Chunk.new (pos : IVec2) : Chunk :=
  { pos := pos
    blocks := fun _ => Block.Air
    sky_light := fun _ => 0
    block_light := fun _ => 0
    exposed_blocks := fun _ => 0 }

/-- `Chunk::get_index`: row-major flat index, `None` when out of bounds. -/
def Chunk.get_index (pos : IVec3) : Option Nat :=
  if pos.x < 0 ∨ (CHUNK_WIDTH : Int) ≤ pos.x ∨ pos.y < 0 ∨ (CHUNK_HEIGHT : Int) ≤ pos.y ∨
      pos.z < 0 ∨ (CHUNK_DEPTH : Int) ≤ pos.z then
    none
  else
    some (pos.x.toNat * (CHUNK_HEIGHT * CHUNK_DEPTH) + pos.y.toNat * CHUNK_DEPTH + pos.z.toNat)

/-- `Chunk::get_block_name`. -/
def Chunk.get_block_name (c : Chunk) (pos : IVec3) : Option Block :=
  (Chunk.get_index pos).map fun index => c.blocks index

/-- `Chunk::set_block_name`; the mutation is returned as a new chunk. -/
def Chunk.set_block_name (c : Chunk) (pos : IVec3) (block_name : Block) : Option Chunk :=
  (Chunk.get_index pos).map fun index =>
    { c with blocks := fun i => if i = index then block_name else c.blocks i }

/-- `Chunk::get_sky_light`: low nibble for even indices, high nibble for odd. -/
def Chunk.get_sky_light (c : Chunk) (pos : IVec3) : Option Nat :=
  (Chunk.get_index pos).map fun index =>
    let byte := c.sky_light (index / 2)
    if index % 2 = 0 then byte &&& 0xf else byte >>> 4

/-- `Chunk::set_sky_light`: clamps the level to 4 bits and writes one nibble. -/
def Chunk.set_sky_light (c : Chunk) (pos : IVec3) (level : Nat) : Option Chunk :=
  (Chunk.get_index pos).map fun index =>
    let byte_index := index / 2
    let byte := c.sky_light byte_index
    let clamped_level := level &&& 0xf
    let byte' := if index % 2 = 0 then (byte &&& 0xf0) ||| clamped_level
      else (byte &&& 0x0f) ||| (clamped_level <<< 4)
    { c with sky_light := fun i => if i = byte_index then byte' else c.sky_light i }

/-- `Chunk::get_block_light`. -/
def Chunk.get_block_light (c : Chunk) (pos : IVec3) : Option Nat :=
  (Chunk.get_index pos).map fun index =>
    let byte := c.block_light (index / 2)
    if index % 2 = 0 then byte &&& 0xf else byte >>> 4

/-- `Chunk::set_block_light`. -/
def Chunk.set_block_light (c : Chunk) (pos : IVec3) (level : Nat) : Option Chunk :=
  (Chunk.get_index pos).map fun index =>
    let byte_index := index / 2
    let byte := c.block_light byte_index
    let clamped_level := level &&& 0xf
    let byte' := if index % 2 = 0 then (byte &&& 0xf0) ||| clamped_level
      else (byte &&& 0x0f) ||| (clamped_level <<< 4)
    { c with block_light := fun i => if i = byte_index then byte' else c.block_light i }

/-- Light bytes hold two 4-bit voxels, so a well-formed chunk keeps every
byte below 256 (`u8`). -/
def Chunk.LightWF (c : Chunk) : Prop :=
  (∀ i, c.sky_light i < 256) ∧ (∀ i, c.block_light i < 256)

/-! ### src/terrain/position.rs and src/terrain/mod.rs: coordinate conversions -/

/-- `Conversion::chunk_to_block_pos` (src/terrain/position.rs). -/
def Conversion.chunk_to_block_pos (pos : IVec2) : IVec3 :=
  ⟨pos.x * (CHUNK_WIDTH : Int), pos.y * (CHUNK_HEIGHT : Int), 0⟩

/-- `Conversion::block_to_chunk_pos` (src/terrain/position.rs), `div_euclid`. -/
def Conversion.block_to_chunk_pos (pos : IVec3) : IVec2 :=
  ⟨pos.x.ediv (CHUNK_WIDTH : Int), pos.y.ediv (CHUNK_HEIGHT : Int)⟩

/-- `Conversion::global_to_local_pos` (src/terrain/position.rs), `rem_euclid`;
the z component passes through unchanged. -/
def Conversion.global_to_local_pos (pos : IVec3) : IVec3 :=
  ⟨pos.x.emod (CHUNK_WIDTH : Int), pos.y.emod (CHUNK_HEIGHT : Int), pos.z⟩

/-- The `World` of src/terrain/mod.rs: a map from chunk position to chunk
plus the dirty set.  The `HashMap` is modelled as an option-valued function. -/
structure World where
  chunks : IVec2 → Option Chunk
  dirty_chunks : List IVec2

/-- `World::new`. -/
def World.new : World := { chunks := fun _ => none, dirty_chunks := [] }

/-- `World::chunk`. -/
def World.chunk (w : World) (pos : IVec2) : Option Chunk := w.chunks pos

/-- `World::set_chunk`: inserts the chunk under the position stored in it. -/
def World.set_chunk (w : World) (c : Chunk) : World :=
  { w with chunks := fun q => if q = c.pos then some c else w.chunks q }

/-- `World::is_chunk_at_pos`. -/
def World.is_chunk_at_pos (w : World) (pos : IVec2) : Bool := (w.chunks pos).isSome

/-- `World::chunk_to_block_pos` (src/terrain/mod.rs, line-for-line the same
as `Conversion::chunk_to_block_pos`). -/
def World.chunk_to_block_pos (pos : IVec2) : IVec3 :=
  ⟨pos.x * (CHUNK_WIDTH : Int), pos.y * (CHUNK_HEIGHT : Int), 0⟩

/-- `World::block_to_chunk_pos` (src/terrain/mod.rs). -/
def World.block_to_chunk_pos (pos : IVec3) : IVec2 :=
  ⟨pos.x.ediv (CHUNK_WIDTH : Int), pos.y.ediv (CHUNK_HEIGHT : Int)⟩

/-- `World::global_to_local_pos` (src/terrain/mod.rs). -/
def World.global_to_local_pos (pos : IVec3) : IVec3 :=
  ⟨pos.x.emod (CHUNK_WIDTH : Int), pos.y.emod (CHUNK_HEIGHT : Int), pos.z⟩

/-- Modelled from the spec: the `Chunk::block` leaf called by
`World::block` in src/terrain/mod.rs is not under src/ (this snapshot of
chunk.rs only has `get_block_name`); per the spec the World "looks up the
chunk and reads the local position", so the read of the stored voxel is
modelled through the same flat index, with air for the out-of-range
coordinates the callers never present. -/
def Chunk.block (c : Chunk) (pos : IVec3) : Block :=
  (c.get_block_name pos).getD Block.Air

/-- `World::block`: convert to chunk plus local coordinates and read;
`none` exactly when the chunk is absent. -/
def World.block (w : World) (pos : IVec3) : Option Block :=
  (w.chunk (World.block_to_chunk_pos pos)).map fun c =>
    c.block (World.global_to_local_pos pos)

/-! ### src/terrain/section.rs: the palette-compressed bit-packed Section -/

def SECTION_WIDTH : Nat := 16

def SECTION_HEIGHT : Nat := 16

def SECTION_DEPTH : Nat := 16

def SECTION_VOLUME : Nat := SECTION_WIDTH * SECTION_HEIGHT * SECTION_DEPTH

/-- One more than `u64::MAX`; `u64` words are `Nat`s below this bound. -/
def U64 : Nat := 2 ^ 64

/-- Rust `!x` on a `u64`, as a `Nat` operation on values below `2 ^ 64`. -/
def rust_not_u64 (x : Nat) : Nat := x ^^^ (U64 - 1)

/-- The `Section` of src/terrain/section.rs: a packed `Vec<u64>` bit
array, the palette of distinct values, and the current width. -/
structure Section where
  data : List Nat
  palette : List Nat
  bits_per_item : Nat

/-- `Section::new`: palette `[0]` and a zeroed bit array sized for
`bits_per_item * SECTION_VOLUME` bits rounded up to whole words. -/
def Section.new (bits_per_item : Nat) : Section :=
  { data := List.replicate ((bits_per_item * SECTION_VOLUME + 63) / 64) 0
    palette := [0]
    bits_per_item := bits_per_item }

/-- `Section::is_empty`: palette has exactly one entry and it is zero. -/
def Section.is_empty (s : Section) : Bool :=
  s.palette.length == 1 && s.palette.getD 0 0 == 0

/-- `Section::item_index`: row-major flat index with x most significant. -/
def Section.item_index (pos : IVec3) : Nat :=
  pos.x.toNat * (SECTION_HEIGHT * SECTION_DEPTH) + pos.y.toNat * SECTION_DEPTH + pos.z.toNat

/-- The debug-asserted bound of `Section::item_index`. -/
def Section.pos_in_bounds (pos : IVec3) : Prop :=
  0 ≤ pos.x ∧ pos.x < (SECTION_WIDTH : Int) ∧ 0 ≤ pos.y ∧ pos.y < (SECTION_HEIGHT : Int) ∧
    0 ≤ pos.z ∧ pos.z < (SECTION_DEPTH : Int)

instance (pos : IVec3) : Decidable (Section.pos_in_bounds pos) := by
  unfold Section.pos_in_bounds
  infer_instance

/-- One backing word of the bit array (`self.data[i]`). -/
def Section.word (s : Section) (i : Nat) : Nat := s.data.getD i 0

/-- `Section::split_index`: word index and bit offset of a bit span. -/
def Section.split_index (item_index bits_per_item : Nat) : Nat × Nat :=
  (item_index * bits_per_item / 64, item_index * bits_per_item % 64)

/-- `Section::palette_index`: extract the stored palette index for a
voxel, reassembling a span that straddles two words. -/
def Section.palette_index (s : Section) (item_index : Nat) : Nat :=
  let word_index := item_index * s.bits_per_item / 64
  let bit_in_word := item_index * s.bits_per_item % 64
  let item0 := s.word word_index >>> bit_in_word
  let item :=
    if bit_in_word + s.bits_per_item > 64 then
      let remaining_bits_n := bit_in_word + s.bits_per_item - 64
      item0 ||| ((s.word (word_index + 1) <<< (s.bits_per_item - remaining_bits_n)) % U64)
    else item0
  item &&& ((1 <<< s.bits_per_item) - 1)

/-- `Section::set_item_ex`: write a palette index into a voxel's bit
span, possibly across two words. -/
def Section.set_item_ex (s : Section) (item_index palette_index : Nat) : Section :=
  let word_index := item_index * s.bits_per_item / 64
  let bit_in_word := item_index * s.bits_per_item % 64
  let bits_in_first_word := 64 - bit_in_word
  if s.bits_per_item ≤ bits_in_first_word then
    let item_mask := (1 <<< s.bits_per_item) - 1
    let d0 := (s.word word_index &&& rust_not_u64 (item_mask <<< bit_in_word)) |||
      ((palette_index &&& item_mask) <<< bit_in_word)
    { s with data := s.data.set word_index d0 }
  else
    let bits_in_second_word := s.bits_per_item - bits_in_first_word
    let mask_for_first_word := (1 <<< bits_in_first_word) - 1
    let d0 := (s.word word_index &&& rust_not_u64 (mask_for_first_word <<< bit_in_word)) |||
      ((palette_index &&& mask_for_first_word) <<< bit_in_word)
    let mask_for_second_word := (1 <<< bits_in_second_word) - 1
    let d1 := (s.word (word_index + 1) &&& rust_not_u64 mask_for_second_word) |||
      ((palette_index >>> bits_in_first_word) &&& mask_for_second_word)
    { s with data := (s.data.set word_index d0).set (word_index + 1) d1 }

/-- `Section::item`: look the stored palette index up in the palette. -/
def Section.item (s : Section) (pos : IVec3) : Nat :=
  s.palette.getD (s.palette_index (Section.item_index pos)) 0

/-- Bit-length helper: number of binary digits of `n`, with fuel. -/
def bit_length_go : Nat → Nat → Nat
  | 0, _ => 0
  | fuel + 1, n => if n = 0 then 0 else bit_length_go fuel (n / 2) + 1

/-- `64 - leading_zeros` of a `u64`: the bit length of a value below
`2 ^ 64`. -/
def u64_bit_length (n : Nat) : Nat := bit_length_go 64 n

/-- `Section::repack`: re-extract every palette index at the old width,
reallocate at the new width and rewrite them all. -/
def Section.repack (s : Section) (new_bits_per_item : Nat) : Section :=
  let all_palette_indices := (List.range SECTION_VOLUME).map s.palette_index
  let s' : Section :=
    { s with
      bits_per_item := new_bits_per_item
      data := List.replicate ((new_bits_per_item * SECTION_VOLUME + 63) / 64) 0 }
  (List.range SECTION_VOLUME).foldl
    (fun acc i => acc.set_item_ex i (all_palette_indices.getD i 0)) s'

/-- `Section::set_item`: reuse an existing palette entry, or append the
value, repack to a wider encoding when the new palette index no longer
fits, and store the new index. -/
def Section.set_item (s : Section) (pos : IVec3) (item : Nat) : Section :=
  let item_index := Section.item_index pos
  match s.palette.findIdx? (fun id => id == item) with
  | some palette_index => s.set_item_ex item_index palette_index
  | none =>
    let s1 : Section := { s with palette := s.palette ++ [item] }
    let used_bits_per_item : Nat :=
      if s1.palette.length ≤ 1 then 1 else u64_bit_length (s1.palette.length - 1)
    let s2 := if s1.bits_per_item < used_bits_per_item then s1.repack used_bits_per_item else s1
    s2.set_item_ex item_index (s2.palette.length - 1)

/-- Well-formedness of a `Section` reachable from `Section::new` with a
positive word-sized width: the width indexes the whole palette, the bit
array has the allocated size with `u64`-bounded words, and every stored
span decodes to a valid palette index. -/
def Section.WF (s : Section) : Prop :=
  1 ≤ s.bits_per_item ∧ s.bits_per_item ≤ 63 ∧
    s.data.length = (s.bits_per_item * SECTION_VOLUME + 63) / 64 ∧
    (∀ w ∈ s.data, w < U64) ∧
    1 ≤ s.palette.length ∧ s.palette.length ≤ 2 ^ s.bits_per_item ∧
    (∀ i < SECTION_VOLUME, s.palette_index i < s.palette.length)

/-- Global bit view of a word list: bit `n` lives in word `n / 64`. -/
def bitAt (d : List Nat) (n : Nat) : Bool := (d.getD (n / 64) 0).testBit (n % 64)

/-- In-bounds predicate for local chunk coordinates, the condition checked
by `Chunk::get_index`. -/
def Chunk.in_bounds (pos : IVec3) : Prop :=
  0 ≤ pos.x ∧ pos.x < (CHUNK_WIDTH : Int) ∧ 0 ≤ pos.y ∧ pos.y < (CHUNK_HEIGHT : Int) ∧
    0 ≤ pos.z ∧ pos.z < (CHUNK_DEPTH : Int)

instance (pos : IVec3) : Decidable (Chunk.in_bounds pos) := by
  unfold Chunk.in_bounds
  infer_instance

/-- The flat index produced by `Chunk::get_index` on in-bounds input. -/
def Chunk.flat_index (pos : IVec3) : Nat :=
  pos.x.toNat * (CHUNK_HEIGHT * CHUNK_DEPTH) + pos.y.toNat * CHUNK_DEPTH + pos.z.toNat

end Terrain

/-! ### Shared list-as-HashSet helpers -/

/-- `HashSet::insert`: a no-op when the element is already present. -/
def hsInsert (l : List IVec2) (p : IVec2) : List IVec2 := if p ∈ l then l else p :: l

/-- `HashSet::remove`: drops the element. -/
def hsRemove (l : List IVec2) (p : IVec2) : List IVec2 := l.filter fun q => decide (q ≠ p)

namespace WorldPipeline

/-! ### src/world/: block dictionary, terrain_data chunks, generators and
the asynchronous generation pipeline -/

/-- One entry of the block dictionary (src/world/block_dictionary.rs, the
`mac_dictionary::dictionary!` flags). -/
structure BlockDef where
  is_hoverable : Bool
  is_visible : Bool
  is_breakable : Bool
  is_collidable : Bool
  is_replaceable : Bool
  is_transparent : Bool
deriving DecidableEq, Repr

/-- The `definition(id)` lookup; the dictionary contents are loaded from
`Blocks.toml` at runtime, so they are a parameter of the development. -/
def Dict : Type := Nat → BlockDef

def CHUNK_WIDTH : Nat := 16

def CHUNK_HEIGHT : Nat := 16

def SUBCHUNK_DEPTH : Nat := 16

def NUM_SUBCHUNKS : Nat := 16

def CHUNK_DEPTH : Nat := SUBCHUNK_DEPTH * NUM_SUBCHUNKS

/-- Block-id constants of src/world/block_generator.rs. -/
def AIR : Nat := 0

def GRASS : Nat := 1

def DIRT : Nat := 2

def STONE : Nat := 3

def TEMP : Nat := 2

/-- `FlatGenerator::choose_block` from src/world/block_generator.rs: the
height-profile match is commented out in the source; the live body
returns dirt on the (x, y) = (0, 0) column and air everywhere else,
independent of z. -/
def FlatGenerator.choose_block (pos : IVec3) : Nat :=
  if pos.x = 0 ∧ pos.y = 0 then DIRT else AIR

/-- Errors of the external `terrain_data` accessors. -/
inductive AccessError where
  | OutOfBounds
  | ChunkUnloaded
deriving DecidableEq, Repr

/-- Local coordinates inside one chunk of the `world!` configuration
(16 x 16 footprint, 16 subchunks of depth 16). -/
def local_in_bounds (pos : IVec3) : Prop :=
  0 ≤ pos.x ∧ pos.x < (CHUNK_WIDTH : Int) ∧ 0 ≤ pos.y ∧ pos.y < (CHUNK_HEIGHT : Int) ∧
    0 ≤ pos.z ∧ pos.z < (CHUNK_DEPTH : Int)

instance (pos : IVec3) : Decidable (local_in_bounds pos) := by
  unfold local_in_bounds
  infer_instance

/-- Modelled from the spec: the `terrain_data` crate's `Chunk` (declared
by the `world!` macro in src/world/mod.rs, body not under src/) stores a
block id and an exposure flag per voxel; channels are index functions. -/
structure Chunk where
  blocks : IVec3 → Nat
  exposed : IVec3 → Bool

/-- `Chunk::default()`: all air, nothing exposed. -/
def Chunk.default : Chunk := ⟨fun _ => 0, fun _ => false⟩

/-- Modelled from the spec: `chunk.block(pos)` reads a voxel, failing on
out-of-bounds coordinates. -/
def Chunk.block (c : Chunk) (pos : IVec3) : Except AccessError Nat :=
  if local_in_bounds pos then Except.ok (c.blocks pos) else Except.error AccessError.OutOfBounds

/-- Modelled from the spec: `chunk.set_block(pos, v)`. -/
def Chunk.set_block (c : Chunk) (pos : IVec3) (v : Nat) : Except AccessError Chunk :=
  if local_in_bounds pos then
    Except.ok { c with blocks := fun q => if q = pos then v else c.blocks q }
  else Except.error AccessError.OutOfBounds

/-- Modelled from the spec: `chunk.set_is_exposed(pos, b)`. -/
def Chunk.set_is_exposed (c : Chunk) (pos : IVec3) (b : Bool) : Except AccessError Chunk :=
  if local_in_bounds pos then
    Except.ok { c with exposed := fun q => if q = pos then b else c.exposed q }
  else Except.error AccessError.OutOfBounds

/-- Modelled from the spec: `World::chunk_coords(ChunkPosition::ZERO)`
yields every local position of a chunk. -/
def chunk_coords : List IVec3 :=
  (List.range CHUNK_WIDTH).flatMap fun x =>
    (List.range CHUNK_HEIGHT).flatMap fun y =>
      (List.range CHUNK_DEPTH).map fun (z : Nat) => ⟨(x : Int), (y : Int), (z : Int)⟩

def BLOCK_ADJ_OFFSETS : List IVec3 :=
  [⟨1, 0, 0⟩, ⟨-1, 0, 0⟩, ⟨0, 1, 0⟩, ⟨0, -1, 0⟩, ⟨0, 0, 1⟩, ⟨0, 0, -1⟩]

/-- Modelled from the spec: `World::block_offsets(pos)` yields the up to
six axis-aligned neighbours, filtering out those whose vertical component
falls outside `[0, chunk depth)`. -/
def block_offsets (pos : IVec3) : List IVec3 :=
  (BLOCK_ADJ_OFFSETS.map fun off => pos + off).filter
    fun adj => decide (0 ≤ adj.z ∧ adj.z < (CHUNK_DEPTH : Int))

/-- `World::chunk_to_block_pos` of the `world!` configuration. -/
def chunk_to_block_pos (pos : IVec2) : IVec3 :=
  ⟨pos.x * (CHUNK_WIDTH : Int), pos.y * (CHUNK_HEIGHT : Int), 0⟩

/-- `World::block_to_chunk_pos` of the `world!` configuration. -/
def block_to_chunk_pos (pos : IVec3) : IVec2 :=
  ⟨pos.x.ediv (CHUNK_WIDTH : Int), pos.y.ediv (CHUNK_HEIGHT : Int)⟩

/-- Modelled from the spec: the `terrain_data` `World` shared by the
systems in src/world/; the chunk map is a loaded-set plus per-voxel
channels. -/
structure World where
  loaded : IVec2 → Bool
  blocks : IVec3 → Nat
  exposed : IVec3 → Bool

/-- Modelled from the spec: `world.block(pos)` resolves the containing
chunk (`ChunkUnloaded` when absent) and reads the voxel. -/
def World.block (w : World) (pos : IVec3) : Except AccessError Nat :=
  if ¬ w.loaded (block_to_chunk_pos pos) then Except.error AccessError.ChunkUnloaded
  else if 0 ≤ pos.z ∧ pos.z < (CHUNK_DEPTH : Int) then Except.ok (w.blocks pos)
  else Except.error AccessError.OutOfBounds

/-- Modelled from the spec: `world.set_is_exposed(pos, b)` (the caller
unwraps, and only calls it on loaded positions). -/
def World.set_is_exposed (w : World) (pos : IVec3) (b : Bool) : World :=
  { w with exposed := fun q => if q = pos then b else w.exposed q }

/-- One step of `make_chunk`'s first pass (the per-position closure of
src/world/chunk_generation.rs): choose the block from the generator and
store it; the source `unwrap`s, so the error arm keeps the chunk. -/
def make_chunk_block_step (g : IVec3 → Nat) (origin_block_pos : IVec3)
    (chunk : Chunk) (pos : IVec3) : Chunk :=
  match chunk.set_block pos (g (origin_block_pos + pos)) with
  | Except.ok c => c
  | Except.error _ => chunk

/-- One step of `make_chunk`'s second pass: recompute the exposure flag
of `pos` from visibility and the transparency of in-chunk neighbours. -/
def make_chunk_exposed_step (dict : Nat → BlockDef) (chunk : Chunk) (pos : IVec3) : Chunk :=
  match chunk.block pos with
  | Except.error _ => chunk
  | Except.ok block =>
    let is_exposed := (dict block).is_visible &&
      (block_offsets pos).any fun adj_pos =>
        match chunk.block adj_pos with
        | Except.ok adj_block => (dict adj_block).is_transparent
        | Except.error _ => false
    match chunk.set_is_exposed pos is_exposed with
    | Except.ok c => c
    | Except.error _ => chunk

/-- `make_chunk` from src/world/chunk_generation.rs: first pass chooses
every block from the generator (`g` is `generator.choose_block` with its
parameters fixed), second pass computes the exposure flag per voxel. -/
def make_chunk (dict : Nat → BlockDef) (g : IVec3 → Nat) (chunk_pos : IVec2) :
    IVec2 × Chunk :=
  let origin_block_pos := chunk_to_block_pos chunk_pos
  let c0 := chunk_coords.foldl (make_chunk_block_step g origin_block_pos) Chunk.default
  (chunk_pos, chunk_coords.foldl (make_chunk_exposed_step dict) c0)

/-- One step of `update_surrounding_exposed` (the per-position closure of
src/world/interaction.rs): recompute the exposure flag of `update_pos`,
skipping it when its chunk is not loaded. -/
def update_exposed_step (dict : Nat → BlockDef) (world : World) (update_pos : IVec3) : World :=
  match world.block update_pos with
  | Except.error _ => world
  | Except.ok block =>
    let is_exposed := (dict block).is_visible &&
      (block_offsets update_pos).any fun adj_pos =>
        match world.block adj_pos with
        | Except.ok adj_block => (dict adj_block).is_transparent
        | Except.error _ => false
    world.set_is_exposed update_pos is_exposed

/-- `update_surrounding_exposed` from src/world/interaction.rs: refresh
the exposure flag of the changed position and its axis neighbours. -/
def update_surrounding_exposed (dict : Nat → BlockDef) (w : World) (pos : IVec3) : World :=
  (block_offsets pos ++ [pos]).foldl (update_exposed_step dict) w

/-- The exposure rule exactly as claim C2's sentence words it: visible
AND at least one axis neighbour that is non-visible or transparent, with
unloaded neighbours not counting. -/
def spec_exposed_rule (dict : Nat → BlockDef) (w : World) (pos : IVec3) : Bool :=
  (dict (w.blocks pos)).is_visible &&
    (block_offsets pos).any fun adj_pos =>
      match w.block adj_pos with
      | Except.ok adj_block =>
        !(dict adj_block).is_visible || (dict adj_block).is_transparent
      | Except.error _ => false

/-- The exposure rule the code of src/world/ actually computes. -/
def code_exposed_rule (dict : Nat → BlockDef) (w : World) (pos : IVec3) : Bool :=
  (dict (w.blocks pos)).is_visible &&
    (block_offsets pos).any fun adj_pos =>
      match w.block adj_pos with
      | Except.ok adj_block => (dict adj_block).is_transparent
      | Except.error _ => false

/-- The exposure rule the second pass of `make_chunk` actually computes,
phrased at chunk level: visible AND at least one in-bounds axis neighbour
transparent. -/
def code_exposed_rule_chunk (dict : Nat → BlockDef) (c : Chunk) (pos : IVec3) : Bool :=
  (dict (c.blocks pos)).is_visible &&
    (block_offsets pos).any fun adj_pos =>
      match c.block adj_pos with
      | Except.ok adj_block => (dict adj_block).is_transparent
      | Except.error _ => false

/-! The scheduling state machine of src/world/chunk_selection.rs and
src/world/chunk_generation.rs.  Chunk payloads are irrelevant to the
scheduling bookkeeping and omitted from receivers. -/

def MAX_TASKS_PER_FRAME : Nat := 5

/-- One `AsyncReceiver` of the `ChunkTaskPool`: the position of the task
that feeds it, and whether the task has finished (`try_recv` succeeds). -/
structure Receiver where
  pos : IVec2
  ready : Bool
deriving DecidableEq, Repr

/-- The pipeline resources: `ChunksToGenerate`, `ChunkTaskPool`,
`ChunksStillGenerating`, the `ResWorld` chunk-map keys and
`ChunksToRender`. -/
structure GenState where
  chunks_to_generate : List IVec2
  chunk_task_pool : List Receiver
  chunks_still_generating : List IVec2
  world : List IVec2
  chunks_to_render : List IVec2
deriving DecidableEq, Repr

/-- `positions_in_square` (identical in src/terrain/mod.rs): the
`iproduct!` over `-radius..=radius` squared, offset by the origin. -/
def positions_in_square (origin : IVec2) (radius : Nat) : List IVec2 :=
  (List.range (2 * radius + 1)).flatMap fun i =>
    (List.range (2 * radius + 1)).map fun (j : Nat) =>
      origin + ⟨(i : Int) - (radius : Int), (j : Int) - (radius : Int)⟩

/-- `choose_chunks_to_generate` (src/world/chunk_selection.rs): extend
the queue with the in-range positions that are neither in the world nor
still generating — the queue itself is not consulted. -/
def choose_chunks_to_generate (origin : IVec2) (radius : Nat) (st : GenState) : GenState :=
  { st with chunks_to_generate := st.chunks_to_generate ++
      ((positions_in_square origin radius).filter fun p =>
        decide (p ∉ st.world ∧ p ∉ st.chunks_still_generating)) }

/-- `make_chunk_tasks` (src/world/chunk_generation.rs): drain the whole
queue, spawn one receiver per drained position and insert each into the
in-flight set — with no per-frame bound. -/
def make_chunk_tasks (st : GenState) : GenState :=
  { st with
    chunks_to_generate := []
    chunk_task_pool := st.chunk_task_pool ++ st.chunks_to_generate.map fun p =>
      { pos := p, ready := false }
    chunks_still_generating := st.chunks_to_generate.foldl hsInsert
      st.chunks_still_generating }

/-- The i-th receiver's asynchronous task finishes. -/
def set_ready : List Receiver → Nat → List Receiver
  | [], _ => []
  | r :: rs, 0 => { pos := r.pos, ready := true } :: rs
  | r :: rs, n + 1 => r :: set_ready rs n

def task_completes (i : Nat) (st : GenState) : GenState :=
  { st with chunk_task_pool := set_ready st.chunk_task_pool i }

/-- The bounded polling loop of `handle_chunk_tasks`
(src/world/chunk_generation.rs 87-104): pop a receiver; a pending one is
rotated to the back; a finished one is merged — on `add_chunk` error the
result is only logged and the receiver dropped, the in-flight entry is
not touched. -/
def handle_loop : Nat → GenState → GenState
  | 0, st => st
  | n + 1, st =>
    match st.chunk_task_pool with
    | [] => st
    | r :: rest =>
      if !r.ready then
        handle_loop n { st with chunk_task_pool := rest ++ [r] }
      else if r.pos ∈ st.world then
        handle_loop n { st with chunk_task_pool := rest }
      else
        handle_loop n { st with
          chunk_task_pool := rest
          world := r.pos :: st.world
          chunks_to_render := st.chunks_to_render ++ [r.pos]
          chunks_still_generating := hsRemove st.chunks_still_generating r.pos }

def handle_chunk_tasks (st : GenState) : GenState := handle_loop MAX_TASKS_PER_FRAME st

/-- The schedulable steps of the pipeline, plus asynchronous completion. -/
inductive GenAction where
  | choose (origin : IVec2) (radius : Nat)
  | make
  | handle
  | complete (i : Nat)
deriving DecidableEq, Repr

def gen_exec (st : GenState) : GenAction → GenState
  | GenAction.choose o r => choose_chunks_to_generate o r st
  | GenAction.make => make_chunk_tasks st
  | GenAction.handle => handle_chunk_tasks st
  | GenAction.complete i => task_completes i st

/-- The `Default` resources inserted by `setup_generator_resources`. -/
def gen_init : GenState := ⟨[], [], [], [], []⟩

def gen_run (acts : List GenAction) : GenState := acts.foldl gen_exec gen_init

/-- States reachable when the scheduling step only ever runs on an empty
queue (the task-spawning step drains it). -/
inductive GReach : GenState → Prop where
  | init : GReach gen_init
  | choose {st : GenState} (o : IVec2) (r : Nat) (h : GReach st)
      (hq : st.chunks_to_generate = []) : GReach (choose_chunks_to_generate o r st)
  | make {st : GenState} (h : GReach st) : GReach (make_chunk_tasks st)
  | handle {st : GenState} (h : GReach st) : GReach (handle_chunk_tasks st)
  | complete {st : GenState} (i : Nat) (h : GReach st) : GReach (task_completes i st)

/-- The scheduling invariant of the pipeline: queue, in-flight task
positions and world keys are mutually disjoint and duplicate-free, and
every in-flight task position is tracked in `ChunksStillGenerating`. -/
def GenInv (st : GenState) : Prop :=
  (st.chunks_to_generate ++ st.chunk_task_pool.map Receiver.pos ++ st.world).Nodup ∧
    ∀ r ∈ st.chunk_task_pool, r.pos ∈ st.chunks_still_generating

end WorldPipeline

namespace MainLoop

/-! ### src/main.rs: the entity-task generation loop -/

/-- Outcome of a `ChunkGenerationTask`
(`Result<Option<ChunkPosition>, AccessError>`). -/
inductive TaskResult where
  | okSome
  | okNone
  | err
deriving DecidableEq, Repr

/-- One spawned `ChunkGenerationTask` entity: its chunk position and its
outcome once finished. -/
structure MTask where
  pos : IVec2
  result : Option TaskResult
deriving DecidableEq, Repr

structure MainState where
  tasks : List MTask
  chunks_being_generated : List IVec2
  dirty_chunks : List IVec2
  world : List IVec2
deriving DecidableEq, Repr

/-- `make_chunk_tasks` (src/main.rs 97-128): walk the positions in the
render square around the origin, skip those already in the world or in
flight, spawn a pending task for the rest and insert them into
`ChunksBeingGenerated`. -/
def make_chunk_tasks (radius : Nat) (st : MainState) : MainState :=
  (WorldPipeline.positions_in_square ⟨0, 0⟩ radius).foldl
    (fun acc chunk_pos =>
      if chunk_pos ∈ acc.world ∨ chunk_pos ∈ acc.chunks_being_generated then acc
      else { acc with
        tasks := acc.tasks ++ [{ pos := chunk_pos, result := none }]
        chunks_being_generated := hsInsert acc.chunks_being_generated chunk_pos }) st

/-- Modelled from the spec: `world_controller::make_chunk` is not under
src/; per the spec a task builds the chunk, merges it itself into the
shared world on success, may find it already present (`Ok(None)`), or may
fail (`Err`).  Completion assigns the outcome to the pending task. -/
def task_completes (i : Nat) (r : TaskResult) (st : MainState) : MainState :=
  match st.tasks[i]? with
  | none => st
  | some t =>
    if t.result = none then
      { st with
        tasks := st.tasks.set i { pos := t.pos, result := some r }
        world := if r = TaskResult.okSome then hsInsert st.world t.pos else st.world }
    else st

/-- One task inspected by `handle_chunk_tasks` (src/main.rs 130-156): a
pending task stays; `Ok(Some)` marks dirty and leaves the in-flight set;
`Ok(None)` and `Err` merely log/despawn — neither removes the position
from `chunks_being_generated`. -/
def handle_one (acc : MainState) (t : MTask) : MainState :=
  match t.result with
  | none => { acc with tasks := acc.tasks ++ [t] }
  | some TaskResult.okSome =>
    { acc with
      dirty_chunks := hsInsert acc.dirty_chunks t.pos
      chunks_being_generated := hsRemove acc.chunks_being_generated t.pos }
  | some TaskResult.okNone => acc
  | some TaskResult.err => acc

def handle_chunk_tasks (st : MainState) : MainState :=
  st.tasks.foldl handle_one { st with tasks := [] }

inductive MainAction where
  | make (radius : Nat)
  | complete (i : Nat) (r : TaskResult)
  | handle
deriving DecidableEq, Repr

def main_exec (st : MainState) : MainAction → MainState
  | MainAction.make radius => make_chunk_tasks radius st
  | MainAction.complete i r => task_completes i r st
  | MainAction.handle => handle_chunk_tasks st

def main_init : MainState := ⟨[], [], [], []⟩

def main_run (acts : List MainAction) : MainState := acts.foldl main_exec main_init

/-- Position `p` is in the in-flight set while no task for it exists: the
configuration an `Err`/`Ok(None)` outcome leaves behind, from which no
step of the loop can ever release `p`. -/
def stuckAt (p : IVec2) (st : MainState) : Prop :=
  p ∈ st.chunks_being_generated ∧ ∀ t ∈ st.tasks, t.pos ≠ p

end MainLoop

namespace TerrainManagement

/-- `FlatGenerator::choose_block` from
src/terrain_management/block_generator.rs: the height-profile column
(`match pos.z`, with the guard arm `z if z < 4` also catching negative
z). -/
def FlatGenerator.choose_block (pos : IVec3) : Terrain.Block :=
  if pos.z = 0 then Terrain.Block.Bedrock
  else if pos.z < 4 then Terrain.Block.Dirt
  else if pos.z = 4 then Terrain.Block.Grass
  else Terrain.Block.Air

end TerrainManagement

/-! ### Concrete instances used by counterexamples and witnesses -/

/-- A dictionary with a visible opaque block (1) and an invisible opaque
block (2); id 0 is air-like (invisible, transparent). -/
def cex_dict : Nat → WorldPipeline.BlockDef := fun id =>
  if id = 1 then ⟨true, true, true, true, false, false⟩
  else if id = 2 then ⟨false, false, false, false, false, false⟩
  else ⟨false, false, false, false, true, true⟩

/-- A fully loaded world that holds block 2 at (0,1,1) and block 1
everywhere else. -/
def cex_world : WorldPipeline.World :=
  { loaded := fun _ => true
    blocks := fun q => if q = ⟨0, 1, 1⟩ then 2 else 1
    exposed := fun _ => false }

/-! ## Supporting lemmas -/

theorem IVec2_add_def (a b : IVec2) : a + b = ⟨a.x + b.x, a.y + b.y⟩ := rfl

theorem IVec3_add_def (a b : IVec3) : a + b = ⟨a.x + b.x, a.y + b.y, a.z + b.z⟩ := rfl

theorem Terrain.Chunk.get_index_of_in_bounds {pos : IVec3} (h : Terrain.Chunk.in_bounds pos) :
    Terrain.Chunk.get_index pos = some (Terrain.Chunk.flat_index pos) := by
  obtain ⟨h1, h2, h3, h4, h5, h6⟩ := h
  unfold Terrain.Chunk.get_index Terrain.Chunk.flat_index
  rw [if_neg]
  push_neg
  exact ⟨h1, h2, h3, h4, h5, h6⟩

theorem Terrain.Chunk.flat_index_inj {p q : IVec3} (hp : Terrain.Chunk.in_bounds p)
    (hq : Terrain.Chunk.in_bounds q)
    (h : Terrain.Chunk.flat_index p = Terrain.Chunk.flat_index q) : p = q := by
  obtain ⟨hp1, hp2, hp3, hp4, hp5, hp6⟩ := hp
  obtain ⟨hq1, hq2, hq3, hq4, hq5, hq6⟩ := hq
  cases p
  cases q
  simp only [Terrain.Chunk.flat_index, Terrain.CHUNK_WIDTH, Terrain.CHUNK_HEIGHT,
    Terrain.CHUNK_DEPTH] at *
  simp only [IVec3.mk.injEq]
  omega

/-! ### Nibble-level facts about the 4-bit packed light encoding -/

theorem and15_eq_mod : ∀ l < 256, l &&& 0xf = l % 16 := by decide

theorem and15_lt (l : Nat) : l &&& 0xf < 16 :=
  Nat.lt_of_le_of_lt Nat.and_le_right (by decide)

theorem nibble_even_get : ∀ b < 256, ∀ cl < 16, ((b &&& 0xf0) ||| cl) &&& 0xf = cl := by decide

theorem nibble_even_frame : ∀ b < 256, ∀ cl < 16, ((b &&& 0xf0) ||| cl) >>> 4 = b >>> 4 := by
  decide

theorem nibble_odd_get : ∀ b < 256, ∀ cl < 16, ((b &&& 0x0f) ||| (cl <<< 4)) >>> 4 = cl := by
  decide

theorem nibble_odd_frame : ∀ b < 256, ∀ cl < 16,
    ((b &&& 0x0f) ||| (cl <<< 4)) &&& 0xf = b &&& 0xf := by decide

/-- Rust `div_euclid` on `i64` is Euclidean division, which is what `Int`
division means in this development. -/
theorem ediv_eq_div (a b : Int) : a.ediv b = a / b := rfl

/-- Rust `rem_euclid` matches the `Int` modulus. -/
theorem emod_eq_mod (a b : Int) : a.emod b = a % b := rfl

/-- Reading back a nibble-packed byte array after writing one nibble:
the written voxel reads `level mod 16` and every other voxel index reads
the old value. -/
theorem nibble_update_read (f : Nat → Nat) (hf : ∀ i, f i < 256) (ip iq level : Nat)
    (hlevel : level < 256) (hii : iq ≠ ip) (b' : Nat)
    (hb' : b' = if ip % 2 = 0 then (f (ip / 2) &&& 0xf0) ||| (level &&& 0xf)
      else (f (ip / 2) &&& 0x0f) ||| ((level &&& 0xf) <<< 4)) :
    ((if ip % 2 = 0 then b' &&& 0xf else b' >>> 4) = level % 16) ∧
    ((if iq % 2 = 0 then (if iq / 2 = ip / 2 then b' else f (iq / 2)) &&& 0xf
        else (if iq / 2 = ip / 2 then b' else f (iq / 2)) >>> 4) =
      (if iq % 2 = 0 then f (iq / 2) &&& 0xf else f (iq / 2) >>> 4)) := by
  subst hb'
  constructor
  · rcases Nat.mod_two_eq_zero_or_one ip with h | h
    · rw [if_pos h, if_pos h, nibble_even_get _ (hf _) _ (and15_lt level),
        and15_eq_mod level hlevel]
    · have h0 : ¬ ip % 2 = 0 := by omega
      rw [if_neg h0, if_neg h0, nibble_odd_get _ (hf _) _ (and15_lt level),
        and15_eq_mod level hlevel]
  · by_cases hbyte : iq / 2 = ip / 2
    · have hpar : iq % 2 ≠ ip % 2 := by omega
      rcases Nat.mod_two_eq_zero_or_one ip with h | h
      · have h2 : ¬ iq % 2 = 0 := by omega
        rw [if_neg h2, if_neg h2, if_pos hbyte, if_pos h, hbyte,
          nibble_even_frame _ (hf _) _ (and15_lt level)]
      · have h2 : iq % 2 = 0 := by omega
        have h0 : ¬ ip % 2 = 0 := by omega
        rw [if_pos h2, if_pos h2, if_pos hbyte, if_neg h0, hbyte,
          nibble_odd_frame _ (hf _) _ (and15_lt level)]
    · rcases Nat.mod_two_eq_zero_or_one iq with h | h
      · rw [if_pos h, if_pos h, if_neg hbyte]
      · have h2 : ¬ iq % 2 = 0 := by omega
        rw [if_neg h2, if_neg h2, if_neg hbyte]

/-! ### Bit-level development for the palette Section -/

theorem getD_lt_of_forall {l : List Nat} (h : ∀ w ∈ l, w < Terrain.U64) (i : Nat) :
    l.getD i 0 < Terrain.U64 := by
  rcases Nat.lt_or_ge i l.length with hi | hi
  · rw [List.getD_eq_getElem l 0 hi]
    exact h _ (List.getElem_mem hi)
  · rw [List.getD_eq_default l 0 hi]
    exact Nat.pos_pow_of_pos 64 (by omega)

theorem getD_testBit_ge {l : List Nat} (h : ∀ w ∈ l, w < Terrain.U64) (i j : Nat)
    (hj : 64 ≤ j) : (l.getD i 0).testBit j = false :=
  Nat.testBit_lt_two_pow
    (lt_of_lt_of_le (getD_lt_of_forall h i) (Nat.pow_le_pow_right (by omega) hj))

theorem one_shiftLeft_sub_one (b : Nat) : (1 <<< b) - 1 = 2 ^ b - 1 := by
  rw [Nat.shiftLeft_eq, one_mul]

theorem rust_not_u64_testBit (x i : Nat) (hi : i < 64) :
    (Terrain.rust_not_u64 x).testBit i = !x.testBit i := by
  unfold Terrain.rust_not_u64 Terrain.U64
  rw [Nat.testBit_xor, Nat.testBit_two_pow_sub_one]
  simp [hi, Bool.xor_true]

/-- Bits of an extracted palette index: bit `j` of
`Section::palette_index idx` is bit `idx * bits_per_item + j` of the
backing bit array, and `false` from the width up. -/
theorem Terrain.Section.testBit_palette_index (s : Terrain.Section)
    (hword : ∀ w ∈ s.data, w < Terrain.U64) (hbpi : s.bits_per_item ≤ 63) (idx j : Nat) :
    (s.palette_index idx).testBit j =
      (decide (j < s.bits_per_item) &&
        Terrain.bitAt s.data (idx * s.bits_per_item + j)) := by
  simp only [Terrain.Section.palette_index, Terrain.Section.word, Terrain.bitAt]
  rw [Nat.testBit_and, one_shiftLeft_sub_one, Nat.testBit_two_pow_sub_one]
  rcases Nat.lt_or_ge j s.bits_per_item with hj | hj
  swap
  · simp [Nat.not_lt.mpr hj]
  rw [Bool.and_comm]
  have hdj : decide (j < s.bits_per_item) = true := by simp [hj]
  rw [hdj, Bool.true_and, Bool.true_and]
  split
  case isTrue hstr =>
    have harg : s.bits_per_item - (idx * s.bits_per_item % 64 + s.bits_per_item - 64) =
        64 - idx * s.bits_per_item % 64 := by omega
    rw [harg, Nat.testBit_or]
    show _ = (s.data.getD ((idx * s.bits_per_item + j) / 64) 0).testBit
      ((idx * s.bits_per_item + j) % 64)
    rcases Nat.lt_or_ge (idx * s.bits_per_item % 64 + j) 64 with hj2 | hj2
    · have e1 : (idx * s.bits_per_item + j) / 64 = idx * s.bits_per_item / 64 := by omega
      have e2 : (idx * s.bits_per_item + j) % 64 = idx * s.bits_per_item % 64 + j := by
        omega
      have hB : ((s.data.getD (idx * s.bits_per_item / 64 + 1) 0 <<<
          (64 - idx * s.bits_per_item % 64)) % Terrain.U64).testBit j = false := by
        unfold Terrain.U64
        rw [Nat.testBit_mod_two_pow, Nat.testBit_shiftLeft]
        have : ¬ (64 - idx * s.bits_per_item % 64 ≤ j) := by omega
        simp [this]
      rw [hB, Bool.or_false, Nat.testBit_shiftRight, e1, e2]
    · have hA : (s.data.getD (idx * s.bits_per_item / 64) 0).testBit
          (idx * s.bits_per_item % 64 + j) = false := getD_testBit_ge hword _ _ (by omega)
      rw [Nat.testBit_shiftRight, hA, Bool.false_or]
      have e3 : (idx * s.bits_per_item + j) / 64 = idx * s.bits_per_item / 64 + 1 := by
        omega
      have e4 : (idx * s.bits_per_item + j) % 64 =
          j - (64 - idx * s.bits_per_item % 64) := by omega
      unfold Terrain.U64
      rw [Nat.testBit_mod_two_pow, Nat.testBit_shiftLeft, e3, e4]
      have h64 : decide (j < 64) = true := by simp; omega
      have hle : decide (64 - idx * s.bits_per_item % 64 ≤ j) = true := by simp; omega
      rw [h64, hle, Bool.true_and, Bool.true_and]
  case isFalse hstr =>
    rw [Nat.testBit_shiftRight]
    show _ = (s.data.getD ((idx * s.bits_per_item + j) / 64) 0).testBit
      ((idx * s.bits_per_item + j) % 64)
    have e1 : (idx * s.bits_per_item + j) / 64 = idx * s.bits_per_item / 64 := by omega
    have e2 : (idx * s.bits_per_item + j) % 64 = idx * s.bits_per_item % 64 + j := by omega
    rw [e1, e2]

theorem getD_set_eq (l : List Nat) (i a : Nat) (h : i < l.length) :
    (l.set i a).getD i 0 = a := by
  simp [List.getD, List.getElem?_set, h]

theorem getD_set_ne (l : List Nat) (i j a : Nat) (h : i ≠ j) :
    (l.set i a).getD j 0 = l.getD j 0 := by
  simp [List.getD, List.getElem?_set_ne h]

/-- Bits written by `Section::set_item_ex`: the span
`[idx * width, idx * width + width)` of the global bit array now holds the
bits of the palette index and every other bit is unchanged. -/
theorem Terrain.Section.bitAt_set_item_ex (s : Terrain.Section)
    (hword : ∀ w ∈ s.data, w < Terrain.U64)
    (hbpi1 : 1 ≤ s.bits_per_item) (hbpi : s.bits_per_item ≤ 63) (idx pi : Nat)
    (hspan : idx * s.bits_per_item + s.bits_per_item ≤ 64 * s.data.length) (n : Nat) :
    Terrain.bitAt (s.set_item_ex idx pi).data n =
      if idx * s.bits_per_item ≤ n ∧ n < idx * s.bits_per_item + s.bits_per_item then
        pi.testBit (n - idx * s.bits_per_item)
      else Terrain.bitAt s.data n := by
  have h64 : n % 64 < 64 := Nat.mod_lt _ (by omega)
  by_cases hbr : s.bits_per_item ≤ 64 - idx * s.bits_per_item % 64
  · simp only [Terrain.Section.set_item_ex, Terrain.Section.word, Terrain.bitAt,
      one_shiftLeft_sub_one, if_pos hbr]
    generalize hB : s.bits_per_item = B at *
    generalize hN : idx * B = N at *
    generalize hd : s.data = d at *
    by_cases hwn : n / 64 = N / 64
    · have hwlt : N / 64 < d.length := by omega
      rw [hwn, getD_set_eq _ _ _ hwlt, Nat.testBit_or, Nat.testBit_and,
        rust_not_u64_testBit _ _ h64]
      simp only [Nat.testBit_shiftLeft, Nat.testBit_and, Nat.testBit_two_pow_sub_one]
      rcases Nat.lt_or_ge (n % 64) (N % 64) with hb1 | hb1
      · have hno : ¬ (N ≤ n ∧ n < N + B) := by omega
        rw [if_neg hno]
        have hd1 : decide (N % 64 ≤ n % 64) = false := decide_eq_false (by omega)
        simp only [hd1, Bool.false_and, Bool.not_false, Bool.and_true, Bool.or_false]
      · rcases Nat.lt_or_ge (n % 64 - N % 64) B with hb2 | hb2
        · have hin : N ≤ n ∧ n < N + B := by omega
          rw [if_pos hin]
          have hd1 : decide (N % 64 ≤ n % 64) = true := decide_eq_true hb1
          have hd2 : decide (n % 64 - N % 64 < B) = true := decide_eq_true hb2
          have e : n % 64 - N % 64 = n - N := by omega
          have hd3 : decide (n - N < B) = true := decide_eq_true (by omega)
          simp only [hd1, hd2, hd3, e, Bool.true_and, Bool.and_true, Bool.not_true,
            Bool.and_false, Bool.false_or]
        · have hno : ¬ (N ≤ n ∧ n < N + B) := by omega
          rw [if_neg hno]
          have hd2 : decide (n % 64 - N % 64 < B) = false := decide_eq_false (by omega)
          simp only [hd2, Bool.and_false, Bool.not_false, Bool.and_true, Bool.or_false]
    · have hno : ¬ (N ≤ n ∧ n < N + B) := by omega
      rw [if_neg hno, getD_set_ne _ _ _ _ (fun h => hwn h.symm)]
  · simp only [Terrain.Section.set_item_ex, Terrain.Section.word, Terrain.bitAt,
      one_shiftLeft_sub_one, if_neg hbr]
    generalize hB : s.bits_per_item = B at *
    generalize hN : idx * B = N at *
    generalize hd : s.data = d at *
    have hwlt : N / 64 < d.length := by omega
    have hw1 : N / 64 + 1 < d.length := by omega
    by_cases hwn : n / 64 = N / 64
    · rw [hwn, getD_set_ne _ _ _ _ (by omega), getD_set_eq _ _ _ hwlt, Nat.testBit_or,
        Nat.testBit_and, rust_not_u64_testBit _ _ h64]
      simp only [Nat.testBit_shiftLeft, Nat.testBit_and, Nat.testBit_two_pow_sub_one]
      rcases Nat.lt_or_ge (n % 64) (N % 64) with hb1 | hb1
      · have hno : ¬ (N ≤ n ∧ n < N + B) := by omega
        rw [if_neg hno]
        have hd1 : decide (N % 64 ≤ n % 64) = false := decide_eq_false (by omega)
        simp only [hd1, Bool.false_and, Bool.not_false, Bool.and_true, Bool.or_false]
      · have hin : N ≤ n ∧ n < N + B := by omega
        rw [if_pos hin]
        have hd1 : decide (N % 64 ≤ n % 64) = true := decide_eq_true hb1
        have hd2 : decide (n % 64 - N % 64 < 64 - N % 64) = true := decide_eq_true (by omega)
        have e : n % 64 - N % 64 = n - N := by omega
        have hd3 : decide (n - N < 64 - N % 64) = true := decide_eq_true (by omega)
        simp only [hd1, hd2, hd3, e, Bool.true_and, Bool.and_true, Bool.not_true,
          Bool.and_false, Bool.false_or]
    · by_cases hwn1 : n / 64 = N / 64 + 1
      · rw [hwn1, getD_set_eq _ _ _ (by rw [List.length_set]; exact hw1), Nat.testBit_or,
          Nat.testBit_and, rust_not_u64_testBit _ _ h64]
        simp only [Nat.testBit_and, Nat.testBit_two_pow_sub_one, Nat.testBit_shiftRight]
        rcases Nat.lt_or_ge (n % 64) (B - (64 - N % 64)) with hb2 | hb2
        · have hin : N ≤ n ∧ n < N + B := by omega
          rw [if_pos hin]
          have hd2 : decide (n % 64 < B - (64 - N % 64)) = true := decide_eq_true hb2
          have e : 64 - N % 64 + n % 64 = n - N := by omega
          simp only [hd2, e, Bool.and_true, Bool.not_true, Bool.and_false, Bool.false_or]
        · have hno : ¬ (N ≤ n ∧ n < N + B) := by omega
          rw [if_neg hno]
          have hd2 : decide (n % 64 < B - (64 - N % 64)) = false := decide_eq_false (by omega)
          simp only [hd2, Bool.and_false, Bool.not_false, Bool.and_true, Bool.or_false]
      · have hno : ¬ (N ≤ n ∧ n < N + B) := by omega
        rw [if_neg hno, getD_set_ne _ _ _ _ (fun h => hwn1 h.symm),
          getD_set_ne _ _ _ _ (fun h => hwn h.symm)]

theorem Terrain.Section.set_item_ex_bits (s : Terrain.Section) (idx pi : Nat) :
    (s.set_item_ex idx pi).bits_per_item = s.bits_per_item := by
  simp only [Terrain.Section.set_item_ex]
  split <;> rfl

theorem Terrain.Section.set_item_ex_palette (s : Terrain.Section) (idx pi : Nat) :
    (s.set_item_ex idx pi).palette = s.palette := by
  simp only [Terrain.Section.set_item_ex]
  split <;> rfl

theorem Terrain.Section.set_item_ex_length (s : Terrain.Section) (idx pi : Nat) :
    (s.set_item_ex idx pi).data.length = s.data.length := by
  simp only [Terrain.Section.set_item_ex]
  split <;> simp

theorem shiftLeft_lt_u64 {x a b : Nat} (hx : x < 2 ^ a) (hab : a + b ≤ 64) :
    x <<< b < Terrain.U64 := by
  rw [Nat.shiftLeft_eq]
  unfold Terrain.U64
  calc x * 2 ^ b < 2 ^ a * 2 ^ b := by
        exact Nat.mul_lt_mul_of_lt_of_le hx (Nat.le_refl _) (Nat.pos_pow_of_pos _ (by omega))
    _ = 2 ^ (a + b) := by rw [Nat.pow_add]
    _ ≤ 2 ^ 64 := Nat.pow_le_pow_right (by omega) hab

theorem and_mask_lt {x b : Nat} : x &&& (2 ^ b - 1) < 2 ^ b :=
  Nat.lt_of_le_of_lt Nat.and_le_right
    (Nat.sub_lt (Nat.pos_pow_of_pos _ (by omega)) (by omega))

theorem Terrain.Section.set_item_ex_words (s : Terrain.Section)
    (hword : ∀ w ∈ s.data, w < Terrain.U64) (hbpi : s.bits_per_item ≤ 63) (idx pi : Nat) :
    ∀ w ∈ (s.set_item_ex idx pi).data, w < Terrain.U64 := by
  have hb : idx * s.bits_per_item % 64 < 64 := Nat.mod_lt _ (by omega)
  simp only [Terrain.Section.set_item_ex, Terrain.Section.word, one_shiftLeft_sub_one]
  split
  case isTrue hbr =>
    intro w hw
    rcases List.mem_or_eq_of_mem_set hw with hmem | hval
    · exact hword _ hmem
    · subst hval
      apply Nat.or_lt_two_pow
      · exact Nat.lt_of_le_of_lt Nat.and_le_left (getD_lt_of_forall hword _)
      · exact shiftLeft_lt_u64 and_mask_lt (by omega)
  case isFalse hbr =>
    intro w hw
    rcases List.mem_or_eq_of_mem_set hw with hw2 | hval
    · rcases List.mem_or_eq_of_mem_set hw2 with hmem | hval
      · exact hword _ hmem
      · subst hval
        apply Nat.or_lt_two_pow
        · exact Nat.lt_of_le_of_lt Nat.and_le_left (getD_lt_of_forall hword _)
        · exact shiftLeft_lt_u64 and_mask_lt (by omega)
    · subst hval
      apply Nat.or_lt_two_pow
      · exact Nat.lt_of_le_of_lt Nat.and_le_left (getD_lt_of_forall hword _)
      · exact Nat.lt_of_lt_of_le and_mask_lt (Nat.pow_le_pow_right (by omega) (by omega))

theorem Terrain.Section.palette_index_lt (s : Terrain.Section) (i : Nat) :
    s.palette_index i < 2 ^ s.bits_per_item := by
  simp only [Terrain.Section.palette_index, one_shiftLeft_sub_one]
  exact and_mask_lt

/-- Round trip at the written voxel: after `set_item_ex idx pi` with a
fitting index, `palette_index idx` decodes back to `pi`. -/
theorem Terrain.Section.palette_index_set_item_ex_self (s : Terrain.Section)
    (hword : ∀ w ∈ s.data, w < Terrain.U64)
    (hbpi1 : 1 ≤ s.bits_per_item) (hbpi : s.bits_per_item ≤ 63) (idx pi : Nat)
    (hspan : idx * s.bits_per_item + s.bits_per_item ≤ 64 * s.data.length)
    (hpi : pi < 2 ^ s.bits_per_item) :
    (s.set_item_ex idx pi).palette_index idx = pi := by
  apply Nat.eq_of_testBit_eq
  intro j
  rw [Terrain.Section.testBit_palette_index _
    (Terrain.Section.set_item_ex_words s hword hbpi idx pi)
    (by rw [Terrain.Section.set_item_ex_bits]; exact hbpi),
    Terrain.Section.set_item_ex_bits,
    Terrain.Section.bitAt_set_item_ex s hword hbpi1 hbpi idx pi hspan]
  rcases Nat.lt_or_ge j s.bits_per_item with hj | hj
  · rw [if_pos ⟨Nat.le_add_right _ _, Nat.add_lt_add_left hj _⟩, Nat.add_sub_cancel_left,
      decide_eq_true hj, Bool.true_and]
  · rw [decide_eq_false (by omega), Bool.false_and]
    exact (Nat.testBit_lt_two_pow
      (lt_of_lt_of_le hpi (Nat.pow_le_pow_right (by omega) hj))).symm

/-- Frame at every other voxel: `set_item_ex idx pi` leaves the decoded
palette index of any other voxel unchanged. -/
theorem Terrain.Section.palette_index_set_item_ex_other (s : Terrain.Section)
    (hword : ∀ w ∈ s.data, w < Terrain.U64)
    (hbpi1 : 1 ≤ s.bits_per_item) (hbpi : s.bits_per_item ≤ 63) (idx idx' pi : Nat)
    (hspan : idx * s.bits_per_item + s.bits_per_item ≤ 64 * s.data.length)
    (hne : idx' ≠ idx) :
    (s.set_item_ex idx pi).palette_index idx' = s.palette_index idx' := by
  apply Nat.eq_of_testBit_eq
  intro j
  rw [Terrain.Section.testBit_palette_index _
    (Terrain.Section.set_item_ex_words s hword hbpi idx pi)
    (by rw [Terrain.Section.set_item_ex_bits]; exact hbpi),
    Terrain.Section.set_item_ex_bits,
    Terrain.Section.bitAt_set_item_ex s hword hbpi1 hbpi idx pi hspan,
    Terrain.Section.testBit_palette_index s hword hbpi]
  rcases Nat.lt_or_ge j s.bits_per_item with hj | hj
  · rw [if_neg]
    rcases Nat.lt_or_ge idx' idx with hlt | hge
    · intro hcon
      have : idx' * s.bits_per_item + s.bits_per_item ≤ idx * s.bits_per_item :=
        le_trans (by rw [← Nat.succ_mul]; exact Nat.mul_le_mul_right _ hlt) (Nat.le_refl _)
      omega
    · have hgt : idx < idx' := lt_of_le_of_ne hge (fun h => hne h.symm)
      intro hcon
      have : idx * s.bits_per_item + s.bits_per_item ≤ idx' * s.bits_per_item := by
        rw [← Nat.succ_mul]
        exact Nat.mul_le_mul_right _ hgt
      omega
  · rw [decide_eq_false (by omega), Bool.false_and, Bool.false_and]

/-- A fold of `set_item_ex` over pairwise-distinct voxel indices: each
written index decodes to its value, every untouched index is unchanged,
and the structural fields survive. -/
theorem Terrain.Section.foldl_set_item_ex_spec (v : Nat → Nat) :
    ∀ (L : List Nat) (t : Terrain.Section),
    (∀ w ∈ t.data, w < Terrain.U64) → 1 ≤ t.bits_per_item → t.bits_per_item ≤ 63 →
    (∀ i ∈ L, i * t.bits_per_item + t.bits_per_item ≤ 64 * t.data.length) →
    (∀ i ∈ L, v i < 2 ^ t.bits_per_item) → L.Nodup →
    ((L.foldl (fun acc i => acc.set_item_ex i (v i)) t).bits_per_item = t.bits_per_item ∧
     (L.foldl (fun acc i => acc.set_item_ex i (v i)) t).palette = t.palette ∧
     (L.foldl (fun acc i => acc.set_item_ex i (v i)) t).data.length = t.data.length ∧
     (∀ w ∈ (L.foldl (fun acc i => acc.set_item_ex i (v i)) t).data, w < Terrain.U64) ∧
     (∀ i ∈ L, (L.foldl (fun acc i => acc.set_item_ex i (v i)) t).palette_index i = v i) ∧
     (∀ i, i ∉ L →
       (L.foldl (fun acc i => acc.set_item_ex i (v i)) t).palette_index i =
         t.palette_index i)) := by
  intro L
  induction L with
  | nil =>
    intro t hw h1 h63 hsp hv hnd
    exact ⟨rfl, rfl, rfl, hw, by simp, fun i _ => rfl⟩
  | cons a L ih =>
    intro t hw h1 h63 hsp hv hnd
    obtain ⟨hna, hndL⟩ := List.nodup_cons.mp hnd
    have hspan_a := hsp a (List.mem_cons_self a L)
    have hva := hv a (List.mem_cons_self a L)
    have hw1 := Terrain.Section.set_item_ex_words t hw h63 a (v a)
    have hb1 : (t.set_item_ex a (v a)).bits_per_item = t.bits_per_item :=
      Terrain.Section.set_item_ex_bits t a (v a)
    have hl1 : (t.set_item_ex a (v a)).data.length = t.data.length :=
      Terrain.Section.set_item_ex_length t a (v a)
    have hp1 : (t.set_item_ex a (v a)).palette = t.palette :=
      Terrain.Section.set_item_ex_palette t a (v a)
    simp only [List.foldl_cons]
    obtain ⟨rb, rp, rl, rw', rin, rout⟩ := ih (t.set_item_ex a (v a))
      hw1 (by rw [hb1]; exact h1) (by rw [hb1]; exact h63)
      (by intro i hi; rw [hb1, hl1]; exact hsp i (List.mem_cons_of_mem a hi))
      (by intro i hi; rw [hb1]; exact hv i (List.mem_cons_of_mem a hi)) hndL
    refine ⟨by rw [rb, hb1], by rw [rp, hp1], by rw [rl, hl1], rw', ?_, ?_⟩
    · intro i hi
      rcases List.mem_cons.mp hi with heq | hmem
      · subst heq
        rw [rout i hna]
        exact Terrain.Section.palette_index_set_item_ex_self t hw h1 h63 i (v i) hspan_a hva
      · exact rin i hmem
    · intro i hi
      have hiL : i ∉ L := fun h => hi (List.mem_cons_of_mem a h)
      have hia : i ≠ a := fun h => hi (h ▸ List.mem_cons_self a L)
      rw [rout i hiL]
      exact Terrain.Section.palette_index_set_item_ex_other t hw h1 h63 a i (v a) hspan_a hia

theorem getD_map_range (f : Nat → Nat) (n i : Nat) (h : i < n) :
    ((List.range n).map f).getD i 0 = f i := by
  simp [List.getD, List.getElem?_map, List.getElem?_range h]

theorem mem_replicate_lt_u64 {n : Nat} : ∀ w ∈ List.replicate n 0, w < Terrain.U64 := by
  intro w hw
  rw [List.eq_of_mem_replicate hw]
  exact Nat.pos_pow_of_pos 64 (by omega)

/-- A span of any voxel index fits inside a bit array allocated for
`bits * SECTION_VOLUME` bits. -/
theorem span_fits {len bits idx : Nat} (hlen : len = (bits * Terrain.SECTION_VOLUME + 63) / 64)
    (hidx : idx < Terrain.SECTION_VOLUME) : idx * bits + bits ≤ 64 * len := by
  have hV : Terrain.SECTION_VOLUME = 4096 := rfl
  rw [hV] at hlen hidx
  have h1 : idx * bits + bits = (idx + 1) * bits := by ring
  have h2 : (idx + 1) * bits ≤ 4096 * bits := Nat.mul_le_mul_right _ (by omega)
  have h3 : 4096 * bits ≤ 64 * ((bits * 4096 + 63) / 64) := by omega
  omega

/-- `Section::repack` keeps the palette, adopts the new width with a
correspondingly re-sized zeroed array, and preserves the decoded palette
index of every voxel. -/
theorem Terrain.Section.repack_spec (s : Terrain.Section)
    (hword : ∀ w ∈ s.data, w < Terrain.U64)
    (h1 : 1 ≤ s.bits_per_item) (h63 : s.bits_per_item ≤ 63)
    (hlen : s.data.length = (s.bits_per_item * Terrain.SECTION_VOLUME + 63) / 64)
    (nb : Nat) (hnb : s.bits_per_item ≤ nb) (hnb63 : nb ≤ 63) :
    (s.repack nb).bits_per_item = nb ∧ (s.repack nb).palette = s.palette ∧
    (s.repack nb).data.length = (nb * Terrain.SECTION_VOLUME + 63) / 64 ∧
    (∀ w ∈ (s.repack nb).data, w < Terrain.U64) ∧
    (∀ i < Terrain.SECTION_VOLUME, (s.repack nb).palette_index i = s.palette_index i) := by
  simp only [Terrain.Section.repack]
  have hfold := Terrain.Section.foldl_set_item_ex_spec
    (fun i => (((List.range Terrain.SECTION_VOLUME).map s.palette_index)).getD i 0)
    (List.range Terrain.SECTION_VOLUME)
    { s with
      bits_per_item := nb
      data := List.replicate ((nb * Terrain.SECTION_VOLUME + 63) / 64) 0 }
    mem_replicate_lt_u64 (le_trans h1 hnb) hnb63
    (by
      intro i hi
      show i * nb + nb ≤ 64 * (List.replicate ((nb * Terrain.SECTION_VOLUME + 63) / 64) 0).length
      rw [List.length_replicate]
      exact span_fits rfl (List.mem_range.mp hi))
    (by
      intro i hi
      show (List.map s.palette_index (List.range Terrain.SECTION_VOLUME)).getD i 0 < 2 ^ nb
      rw [getD_map_range _ _ _ (List.mem_range.mp hi)]
      exact lt_of_lt_of_le (Terrain.Section.palette_index_lt s i)
        (Nat.pow_le_pow_right (by omega) hnb))
    (List.nodup_range _)
  obtain ⟨rb, rp, rl, rw', rin, _⟩ := hfold
  refine ⟨rb, rp, by rw [rl]; simp, rw', ?_⟩
  intro i hi
  rw [rin i (List.mem_range.mpr hi)]
  exact getD_map_range _ _ _ hi

/-- `List.findIdx?` returning `some i` means index `i` is in range and
its element satisfies the predicate. -/
theorem findIdx?_spec (p : Nat → Bool) (l : List Nat) (i : Nat) (h : l.findIdx? p = some i) :
    i < l.length ∧ p (l.getD i 0) = true := by
  obtain ⟨hlen, hidx⟩ := List.findIdx?_eq_some_iff_findIdx_eq.mp h
  subst hidx
  refine ⟨hlen, ?_⟩
  rw [List.getD_eq_getElem l 0 hlen]
  exact @List.findIdx_getElem _ p l hlen

theorem getD_append_lt (l : List Nat) (v : Nat) (i : Nat) (h : i < l.length) :
    (l ++ [v]).getD i 0 = l.getD i 0 := by
  simp [List.getD, List.getElem?_append_left h]

theorem getD_append_len (l : List Nat) (v : Nat) : (l ++ [v]).getD l.length 0 = v := by
  simp [List.getD, List.getElem?_append_right (Nat.le_refl _)]

theorem bit_length_go_spec :
    ∀ (fuel n : Nat), n < 2 ^ fuel →
      n < 2 ^ Terrain.bit_length_go fuel n ∧
        (∀ m, n < 2 ^ m → Terrain.bit_length_go fuel n ≤ m) := by
  intro fuel
  induction fuel with
  | zero =>
    intro n hn
    have : n = 0 := by simpa using hn
    subst this
    exact ⟨by simp [Terrain.bit_length_go], fun m _ => by simp [Terrain.bit_length_go]⟩
  | succ fuel ih =>
    intro n hn
    by_cases h0 : n = 0
    · subst h0
      exact ⟨by simp [Terrain.bit_length_go], fun m _ => by simp [Terrain.bit_length_go]⟩
    · have hdiv : n / 2 < 2 ^ fuel := by
        rw [Nat.pow_succ] at hn
        omega
      obtain ⟨ihlt, ihmin⟩ := ih (n / 2) hdiv
      have hstep : Terrain.bit_length_go (fuel + 1) n =
          Terrain.bit_length_go fuel (n / 2) + 1 := by
        simp [Terrain.bit_length_go, h0]
      constructor
      · rw [hstep, Nat.pow_succ]
        omega
      · intro m hm
        have hm1 : 1 ≤ m := by
          by_contra hcon
          have : m = 0 := by omega
          subst this
          simp at hm
          omega
        have hsub : n / 2 < 2 ^ (m - 1) := by
          have : 2 ^ m = 2 ^ (m - 1) * 2 := by
            rw [← Nat.pow_succ]
            congr 1
            omega
          rw [this] at hm
          omega
        have := ihmin (m - 1) hsub
        rw [hstep]
        omega

theorem lt_two_pow_u64_bit_length (n : Nat) (h : n < 2 ^ 64) :
    n < 2 ^ Terrain.u64_bit_length n :=
  (bit_length_go_spec 64 n h).1

theorem u64_bit_length_le {n m : Nat} (h : n < 2 ^ m) (hm : m ≤ 64) :
    Terrain.u64_bit_length n ≤ m :=
  (bit_length_go_spec 64 n
    (lt_of_lt_of_le h (Nat.pow_le_pow_right (by omega) hm))).2 m h

theorem one_le_u64_bit_length {n : Nat} (h : 1 ≤ n) (h64 : n < 2 ^ 64) :
    1 ≤ Terrain.u64_bit_length n := by
  have hlt := (bit_length_go_spec 64 n h64).1
  by_contra hcon
  have hz : Terrain.u64_bit_length n = 0 := by omega
  unfold Terrain.u64_bit_length at hz
  rw [hz] at hlt
  simp at hlt
  omega

theorem Terrain.Section.item_index_lt {pos : IVec3} (h : Terrain.Section.pos_in_bounds pos) :
    Terrain.Section.item_index pos < Terrain.SECTION_VOLUME := by
  obtain ⟨h1, h2, h3, h4, h5, h6⟩ := h
  simp only [Terrain.Section.item_index, Terrain.SECTION_VOLUME, Terrain.SECTION_WIDTH,
    Terrain.SECTION_HEIGHT, Terrain.SECTION_DEPTH] at *
  omega

theorem Terrain.Section.item_index_inj {p q : IVec3} (hp : Terrain.Section.pos_in_bounds p)
    (hq : Terrain.Section.pos_in_bounds q)
    (h : Terrain.Section.item_index p = Terrain.Section.item_index q) : p = q := by
  obtain ⟨hp1, hp2, hp3, hp4, hp5, hp6⟩ := hp
  obtain ⟨hq1, hq2, hq3, hq4, hq5, hq6⟩ := hq
  cases p
  cases q
  simp only [Terrain.Section.item_index, Terrain.SECTION_WIDTH, Terrain.SECTION_HEIGHT,
    Terrain.SECTION_DEPTH] at *
  simp only [IVec3.mk.injEq]
  omega

/-- The tail of `Section::set_item` in the append-a-new-value case: the
prepared section `s2` (after the optional repack) stores the final palette
slot at the voxel and retains every other voxel of the original `s`. -/
theorem Terrain.Section.set_item_none_aux (s s2 : Terrain.Section) (v : Nat) (pos : IVec3)
    (hpos : Terrain.Section.pos_in_bounds pos)
    (hword2 : ∀ w ∈ s2.data, w < Terrain.U64)
    (h1' : 1 ≤ s2.bits_per_item) (h63' : s2.bits_per_item ≤ 63)
    (hlen2 : s2.data.length = (s2.bits_per_item * Terrain.SECTION_VOLUME + 63) / 64)
    (hpal : s2.palette = s.palette ++ [v])
    (hpallen1 : 1 ≤ s.palette.length)
    (hplt : s.palette.length < 2 ^ s2.bits_per_item)
    (hpres : ∀ i < Terrain.SECTION_VOLUME, s2.palette_index i = s.palette_index i)
    (hvalid : ∀ i < Terrain.SECTION_VOLUME, s.palette_index i < s.palette.length) :
    ((s2.set_item_ex (Terrain.Section.item_index pos) (s2.palette.length - 1)).item pos = v) ∧
    (∀ q, Terrain.Section.pos_in_bounds q → q ≠ pos →
      (s2.set_item_ex (Terrain.Section.item_index pos) (s2.palette.length - 1)).item q =
        s.item q) ∧
    (s2.set_item_ex (Terrain.Section.item_index pos) (s2.palette.length - 1)).WF ∧
    (s2.set_item_ex (Terrain.Section.item_index pos)
      (s2.palette.length - 1)).palette.length = s.palette.length + 1 ∧
    (s2.set_item_ex (Terrain.Section.item_index pos)
      (s2.palette.length - 1)).palette.getD 0 0 = s.palette.getD 0 0 := by
  have hidx : Terrain.Section.item_index pos < Terrain.SECTION_VOLUME :=
    Terrain.Section.item_index_lt hpos
  have hspan : Terrain.Section.item_index pos * s2.bits_per_item + s2.bits_per_item ≤
      64 * s2.data.length := span_fits hlen2 hidx
  have hlen01 : s2.palette.length = s.palette.length + 1 := by rw [hpal]; simp
  have hpi : s2.palette.length - 1 = s.palette.length := by omega
  have hpilt : s2.palette.length - 1 < 2 ^ s2.bits_per_item := by rw [hpi]; exact hplt
  refine ⟨?_, ?_, ?_, ?_, ?_⟩
  · unfold Terrain.Section.item
    rw [Terrain.Section.set_item_ex_palette,
      Terrain.Section.palette_index_set_item_ex_self s2 hword2 h1' h63' _ _ hspan hpilt,
      hpi, hpal]
    exact getD_append_len _ _
  · intro q hq hneq
    have hne : Terrain.Section.item_index q ≠ Terrain.Section.item_index pos :=
      fun h => hneq (Terrain.Section.item_index_inj hq hpos h)
    unfold Terrain.Section.item
    rw [Terrain.Section.set_item_ex_palette,
      Terrain.Section.palette_index_set_item_ex_other s2 hword2 h1' h63' _ _ _ hspan hne,
      hpres _ (Terrain.Section.item_index_lt hq), hpal]
    exact getD_append_lt _ _ _ (hvalid _ (Terrain.Section.item_index_lt hq))
  · refine ⟨by rw [Terrain.Section.set_item_ex_bits]; exact h1',
      by rw [Terrain.Section.set_item_ex_bits]; exact h63',
      by rw [Terrain.Section.set_item_ex_length, Terrain.Section.set_item_ex_bits]; exact hlen2,
      Terrain.Section.set_item_ex_words s2 hword2 h63' _ _,
      by rw [Terrain.Section.set_item_ex_palette]; omega, ?_, ?_⟩
    · rw [Terrain.Section.set_item_ex_palette, Terrain.Section.set_item_ex_bits, hlen01]
      omega
    · intro i hi
      rw [Terrain.Section.set_item_ex_palette]
      by_cases hiq : i = Terrain.Section.item_index pos
      · subst hiq
        rw [Terrain.Section.palette_index_set_item_ex_self s2 hword2 h1' h63' _ _ hspan hpilt]
        omega
      · rw [Terrain.Section.palette_index_set_item_ex_other s2 hword2 h1' h63' _ _ _ hspan hiq,
          hpres i hi]
        have := hvalid i hi
        omega
  · rw [Terrain.Section.set_item_ex_palette, hlen01]
  · rw [Terrain.Section.set_item_ex_palette, hpal]
    exact getD_append_lt _ _ _ (by omega)

/-- Full behaviour of `Section::set_item` on a well-formed section:
the written voxel reads back the value, every other voxel is unchanged,
well-formedness is preserved, and the palette only ever grows (by at most
one entry, with entry zero untouched). -/
theorem Terrain.Section.set_item_spec (s : Terrain.Section) (hWF : s.WF)
    (hsmall : s.palette.length < 2 ^ 63) (pos : IVec3)
    (hpos : Terrain.Section.pos_in_bounds pos) (v : Nat) :
    (s.set_item pos v).item pos = v ∧
    (∀ q, Terrain.Section.pos_in_bounds q → q ≠ pos →
      (s.set_item pos v).item q = s.item q) ∧
    (s.set_item pos v).WF ∧
    s.palette.length ≤ (s.set_item pos v).palette.length ∧
    (s.set_item pos v).palette.getD 0 0 = s.palette.getD 0 0 ∧
    ((s.set_item pos v).palette.length = s.palette.length ∨
      (s.set_item pos v).palette.length = s.palette.length + 1) := by
  obtain ⟨h1, h63, hlen, hword, hpal1, hpal2, hvalid⟩ := hWF
  have hidx : Terrain.Section.item_index pos < Terrain.SECTION_VOLUME :=
    Terrain.Section.item_index_lt hpos
  have hspan : Terrain.Section.item_index pos * s.bits_per_item + s.bits_per_item ≤
      64 * s.data.length := span_fits hlen hidx
  unfold Terrain.Section.set_item
  cases hfind : s.palette.findIdx? (fun id => id == v) with
  | some pi =>
    simp only [hfind]
    obtain ⟨hpiLen, hpiVal⟩ := findIdx?_spec _ _ _ hfind
    have hpiv : s.palette.getD pi 0 = v := by simpa using hpiVal
    have hpi2 : pi < 2 ^ s.bits_per_item := lt_of_lt_of_le hpiLen hpal2
    refine ⟨?_, ?_, ?_, ?_, ?_, Or.inl ?_⟩
    · unfold Terrain.Section.item
      rw [Terrain.Section.set_item_ex_palette,
        Terrain.Section.palette_index_set_item_ex_self s hword h1 h63 _ pi hspan hpi2, hpiv]
    · intro q hq hneq
      unfold Terrain.Section.item
      rw [Terrain.Section.set_item_ex_palette,
        Terrain.Section.palette_index_set_item_ex_other s hword h1 h63 _ _ pi hspan
          (fun h => hneq (Terrain.Section.item_index_inj hq hpos h))]
    · refine ⟨by rw [Terrain.Section.set_item_ex_bits]; exact h1,
        by rw [Terrain.Section.set_item_ex_bits]; exact h63,
        by rw [Terrain.Section.set_item_ex_length, Terrain.Section.set_item_ex_bits]; exact hlen,
        Terrain.Section.set_item_ex_words s hword h63 _ _,
        by rw [Terrain.Section.set_item_ex_palette]; exact hpal1, ?_, ?_⟩
      · rw [Terrain.Section.set_item_ex_palette, Terrain.Section.set_item_ex_bits]
        exact hpal2
      · intro i hi
        rw [Terrain.Section.set_item_ex_palette]
        by_cases hiq : i = Terrain.Section.item_index pos
        · subst hiq
          rw [Terrain.Section.palette_index_set_item_ex_self s hword h1 h63 _ pi hspan hpi2]
          exact hpiLen
        · rw [Terrain.Section.palette_index_set_item_ex_other s hword h1 h63 _ _ pi hspan hiq]
          exact hvalid i hi
    · rw [Terrain.Section.set_item_ex_palette]
    · rw [Terrain.Section.set_item_ex_palette]
    · rw [Terrain.Section.set_item_ex_palette]
  | none =>
    simp only [hfind]
    have hg1 : ¬ ((s.palette ++ [v]).length ≤ 1) := by
      simp only [List.length_append, List.length_singleton]
      omega
    rw [if_neg hg1]
    have hused : (s.palette ++ [v]).length - 1 = s.palette.length := by
      simp only [List.length_append, List.length_singleton]
      omega
    rw [hused]
    have hs64 : s.palette.length < 2 ^ 64 :=
      lt_of_lt_of_le hsmall (Nat.pow_le_pow_right (by omega) (by omega))
    have hvlt : s.palette.length < 2 ^ Terrain.u64_bit_length s.palette.length :=
      lt_two_pow_u64_bit_length _ hs64
    have hule : Terrain.u64_bit_length s.palette.length ≤ 63 :=
      u64_bit_length_le hsmall (by omega)
    have hub1 : 1 ≤ Terrain.u64_bit_length s.palette.length :=
      one_le_u64_bit_length hpal1 hs64
    by_cases hrep : s.bits_per_item < Terrain.u64_bit_length s.palette.length
    · rw [if_pos hrep]
      obtain ⟨rb, rp, rl, rwords, rpres⟩ :=
        Terrain.Section.repack_spec { s with palette := s.palette ++ [v] } hword h1 h63 hlen
          (Terrain.u64_bit_length s.palette.length) (le_of_lt hrep) hule
      obtain ⟨A, B, C, D, E⟩ :=
        Terrain.Section.set_item_none_aux s
          (Terrain.Section.repack { s with palette := s.palette ++ [v] }
            (Terrain.u64_bit_length s.palette.length)) v pos hpos rwords
          (by rw [rb]; exact hub1) (by rw [rb]; exact hule) (by rw [rl, rb])
          rp hpal1 (by rw [rb]; exact hvlt)
          (fun i hi => rpres i hi) hvalid
      exact ⟨A, B, C, by omega, E, Or.inr D⟩
    · rw [if_neg hrep]
      obtain ⟨A, B, C, D, E⟩ :=
        Terrain.Section.set_item_none_aux s { s with palette := s.palette ++ [v] } v pos hpos
          hword h1 h63 hlen rfl hpal1
          (lt_of_lt_of_le hvlt (Nat.pow_le_pow_right (by omega)
            (show Terrain.u64_bit_length s.palette.length ≤ s.bits_per_item by omega)))
          (fun i _ => rfl) hvalid
      exact ⟨A, B, C, by omega, E, Or.inr D⟩

theorem getD_replicate_zero (n i : Nat) : (List.replicate n (0 : Nat)).getD i 0 = 0 := by
  rcases Nat.lt_or_ge i n with h | h
  · simp [List.getD, List.getElem?_replicate, h]
  · simp [List.getD, List.getElem?_replicate, Nat.not_lt.mpr h]

theorem Terrain.Section.palette_index_new (b i : Nat) :
    (Terrain.Section.new b).palette_index i = 0 := by
  simp [Terrain.Section.palette_index, Terrain.Section.new, Terrain.Section.word,
    getD_replicate_zero]

/-- A fresh section of any positive word-sized width is well-formed. -/
theorem Terrain.Section.WF_new (b : Nat) (h1 : 1 ≤ b) (h63 : b ≤ 63) :
    (Terrain.Section.new b).WF := by
  refine ⟨h1, h63, by simp [Terrain.Section.new], ?_, by simp [Terrain.Section.new],
    ?_, ?_⟩
  · intro w hw
    exact mem_replicate_lt_u64 w hw
  · simpa [Terrain.Section.new] using Nat.one_le_two_pow
  · intro i _
    rw [Terrain.Section.palette_index_new]
    simp [Terrain.Section.new]

theorem foldl_set_item_ex_palette (v : Nat → Nat) :
    ∀ (L : List Nat) (t : Terrain.Section),
      (L.foldl (fun acc i => acc.set_item_ex i (v i)) t).palette = t.palette := by
  intro L
  induction L with
  | nil => intro t; rfl
  | cons a L ih =>
    intro t
    simp only [List.foldl_cons]
    rw [ih, Terrain.Section.set_item_ex_palette]

theorem Terrain.Section.repack_palette (s : Terrain.Section) (nb : Nat) :
    (s.repack nb).palette = s.palette := by
  simp only [Terrain.Section.repack]
  exact foldl_set_item_ex_palette _ _ _

/-- `Section::set_item` keeps the palette or appends exactly the written
value; entries are never removed. -/
theorem Terrain.Section.set_item_palette (s : Terrain.Section) (pos : IVec3) (v : Nat) :
    (s.set_item pos v).palette = s.palette ∨
      (s.set_item pos v).palette = s.palette ++ [v] := by
  unfold Terrain.Section.set_item
  cases hfind : s.palette.findIdx? (fun id => id == v) with
  | some pi =>
    simp only [hfind]
    exact Or.inl (Terrain.Section.set_item_ex_palette _ _ _)
  | none =>
    simp only [hfind]
    right
    split <;> split <;>
      simp [Terrain.Section.set_item_ex_palette, Terrain.Section.repack_palette]

/-! ### The generation pipeline: chunk construction -/

theorem WorldPipeline.mem_chunk_coords (q : IVec3) :
    q ∈ WorldPipeline.chunk_coords ↔ WorldPipeline.local_in_bounds q := by
  obtain ⟨qx, qy, qz⟩ := q
  constructor
  · intro hmem
    obtain ⟨x, hx, hmem2⟩ := List.mem_flatMap.mp hmem
    obtain ⟨y, hy, hmem3⟩ := List.mem_flatMap.mp hmem2
    obtain ⟨z, hz, he⟩ := List.mem_map.mp hmem3
    have hx2 : x < 16 := List.mem_range.mp hx
    have hy2 : y < 16 := List.mem_range.mp hy
    have hz2 : z < 256 := List.mem_range.mp hz
    rw [IVec3.mk.injEq] at he
    obtain ⟨h1, h2, h3⟩ := he
    refine ⟨?_, ?_, ?_, ?_, ?_, ?_⟩
    · show (0 : Int) ≤ qx
      omega
    · show qx < ((16 : Nat) : Int)
      omega
    · show (0 : Int) ≤ qy
      omega
    · show qy < ((16 : Nat) : Int)
      omega
    · show (0 : Int) ≤ qz
      omega
    · show qz < ((256 : Nat) : Int)
      omega
  · intro hb
    obtain ⟨h1, h2, h3, h4, h5, h6⟩ := hb
    have h2b : qx < ((16 : Nat) : Int) := h2
    have h4b : qy < ((16 : Nat) : Int) := h4
    have h6b : qz < ((256 : Nat) : Int) := h6
    have h1b : (0 : Int) ≤ qx := h1
    have h3b : (0 : Int) ≤ qy := h3
    have h5b : (0 : Int) ≤ qz := h5
    apply List.mem_flatMap.mpr
    refine ⟨qx.toNat, List.mem_range.mpr (show qx.toNat < WorldPipeline.CHUNK_WIDTH from
      show qx.toNat < 16 by omega), ?_⟩
    apply List.mem_flatMap.mpr
    refine ⟨qy.toNat, List.mem_range.mpr (show qy.toNat < WorldPipeline.CHUNK_HEIGHT from
      show qy.toNat < 16 by omega), ?_⟩
    apply List.mem_map.mpr
    refine ⟨qz.toNat, List.mem_range.mpr (show qz.toNat < WorldPipeline.CHUNK_DEPTH from
      show qz.toNat < 256 by omega), ?_⟩
    rw [IVec3.mk.injEq]
    refine ⟨by omega, by omega, by omega⟩

theorem WorldPipeline.foldl_block_step_blocks (g : IVec3 → Nat) (origin : IVec3)
    (l : List IVec3) (c : WorldPipeline.Chunk) (q : IVec3)
    (hq : WorldPipeline.local_in_bounds q) :
    (l.foldl (WorldPipeline.make_chunk_block_step g origin) c).blocks q =
      if q ∈ l then g (origin + q) else c.blocks q := by
  induction l generalizing c with
  | nil => simp
  | cons p l ih =>
    rw [List.foldl_cons, ih]
    by_cases hql : q ∈ l
    · rw [if_pos hql, if_pos (List.mem_cons_of_mem p hql)]
    · rw [if_neg hql]
      by_cases hqp : q = p
      · subst hqp
        rw [if_pos (List.mem_cons_self q l)]
        unfold WorldPipeline.make_chunk_block_step WorldPipeline.Chunk.set_block
        rw [if_pos hq]
        simp
      · rw [if_neg (by simp [List.mem_cons, hqp, hql])]
        unfold WorldPipeline.make_chunk_block_step WorldPipeline.Chunk.set_block
        by_cases hpb : WorldPipeline.local_in_bounds p
        · rw [if_pos hpb]
          simp [hqp]
        · rw [if_neg hpb]

theorem WorldPipeline.exposed_step_blocks (dict : Nat → WorldPipeline.BlockDef)
    (c : WorldPipeline.Chunk) (p : IVec3) :
    (WorldPipeline.make_chunk_exposed_step dict c p).blocks = c.blocks := by
  by_cases hp : WorldPipeline.local_in_bounds p
  · simp [WorldPipeline.make_chunk_exposed_step, WorldPipeline.Chunk.block,
      WorldPipeline.Chunk.set_is_exposed, hp]
  · simp [WorldPipeline.make_chunk_exposed_step, WorldPipeline.Chunk.block, hp]

theorem WorldPipeline.rule_chunk_congr (dict : Nat → WorldPipeline.BlockDef)
    {c c2 : WorldPipeline.Chunk} (h : c2.blocks = c.blocks) (q : IVec3) :
    WorldPipeline.code_exposed_rule_chunk dict c2 q =
      WorldPipeline.code_exposed_rule_chunk dict c q := by
  unfold WorldPipeline.code_exposed_rule_chunk WorldPipeline.Chunk.block
  rw [h]

theorem WorldPipeline.exposed_step_exposed (dict : Nat → WorldPipeline.BlockDef)
    (c : WorldPipeline.Chunk) (p q : IVec3) :
    (WorldPipeline.make_chunk_exposed_step dict c p).exposed q =
      if q = p ∧ WorldPipeline.local_in_bounds p
      then WorldPipeline.code_exposed_rule_chunk dict c p else c.exposed q := by
  by_cases hp : WorldPipeline.local_in_bounds p
  · simp only [WorldPipeline.make_chunk_exposed_step, WorldPipeline.Chunk.block,
      WorldPipeline.Chunk.set_is_exposed, WorldPipeline.code_exposed_rule_chunk,
      if_pos hp, hp, and_true]
    by_cases hqp : q = p <;> simp [hqp]
  · simp [WorldPipeline.make_chunk_exposed_step, WorldPipeline.Chunk.block, hp]

theorem WorldPipeline.foldl_exposed_step_blocks (dict : Nat → WorldPipeline.BlockDef)
    (l : List IVec3) (c : WorldPipeline.Chunk) :
    (l.foldl (WorldPipeline.make_chunk_exposed_step dict) c).blocks = c.blocks := by
  induction l generalizing c with
  | nil => rfl
  | cons p l ih => rw [List.foldl_cons, ih, WorldPipeline.exposed_step_blocks]

theorem WorldPipeline.foldl_exposed_step_exposed (dict : Nat → WorldPipeline.BlockDef)
    (l : List IVec3) (c : WorldPipeline.Chunk) (q : IVec3) :
    (l.foldl (WorldPipeline.make_chunk_exposed_step dict) c).exposed q =
      if q ∈ l ∧ WorldPipeline.local_in_bounds q
      then WorldPipeline.code_exposed_rule_chunk dict c q else c.exposed q := by
  induction l generalizing c with
  | nil => simp
  | cons p l ih =>
    rw [List.foldl_cons, ih,
      WorldPipeline.rule_chunk_congr dict (WorldPipeline.exposed_step_blocks dict c p) q,
      WorldPipeline.exposed_step_exposed]
    by_cases hqp : q = p
    · subst hqp
      by_cases hqb : WorldPipeline.local_in_bounds q <;>
        by_cases hql : q ∈ l <;> simp [hqb, hql]
    · by_cases hqb : WorldPipeline.local_in_bounds q <;>
        by_cases hql : q ∈ l <;> simp [hqb, hql, hqp]

theorem WorldPipeline.make_chunk_blocks (dict : Nat → WorldPipeline.BlockDef)
    (g : IVec3 → Nat) (cp : IVec2) (q : IVec3) (hq : WorldPipeline.local_in_bounds q) :
    (WorldPipeline.make_chunk dict g cp).2.blocks q =
      g (WorldPipeline.chunk_to_block_pos cp + q) := by
  simp only [WorldPipeline.make_chunk]
  rw [WorldPipeline.foldl_exposed_step_blocks,
    WorldPipeline.foldl_block_step_blocks _ _ _ _ _ hq,
    if_pos ((WorldPipeline.mem_chunk_coords q).mpr hq)]

theorem WorldPipeline.make_chunk_exposed (dict : Nat → WorldPipeline.BlockDef)
    (g : IVec3 → Nat) (cp : IVec2) (q : IVec3) (hq : WorldPipeline.local_in_bounds q) :
    (WorldPipeline.make_chunk dict g cp).2.exposed q =
      WorldPipeline.code_exposed_rule_chunk dict (WorldPipeline.make_chunk dict g cp).2 q := by
  simp only [WorldPipeline.make_chunk]
  rw [WorldPipeline.foldl_exposed_step_exposed,
    if_pos ⟨(WorldPipeline.mem_chunk_coords q).mpr hq, hq⟩]
  exact (WorldPipeline.rule_chunk_congr dict
    (WorldPipeline.foldl_exposed_step_blocks dict WorldPipeline.chunk_coords _) q).symm

/-! ### The generation pipeline: in-place exposure updates -/

theorem WorldPipeline.update_step_block (dict : Nat → WorldPipeline.BlockDef)
    (w : WorldPipeline.World) (p r : IVec3) :
    (WorldPipeline.update_exposed_step dict w p).block r = w.block r := by
  unfold WorldPipeline.update_exposed_step
  cases hw : w.block p with
  | error e => rfl
  | ok b => rfl

theorem WorldPipeline.update_step_blocks (dict : Nat → WorldPipeline.BlockDef)
    (w : WorldPipeline.World) (p : IVec3) :
    (WorldPipeline.update_exposed_step dict w p).blocks = w.blocks := by
  unfold WorldPipeline.update_exposed_step
  cases hw : w.block p with
  | error e => rfl
  | ok b => rfl

theorem WorldPipeline.update_step_loaded (dict : Nat → WorldPipeline.BlockDef)
    (w : WorldPipeline.World) (p : IVec3) :
    (WorldPipeline.update_exposed_step dict w p).loaded = w.loaded := by
  unfold WorldPipeline.update_exposed_step
  cases hw : w.block p with
  | error e => rfl
  | ok b => rfl

theorem WorldPipeline.rule_world_congr (dict : Nat → WorldPipeline.BlockDef)
    {w w2 : WorldPipeline.World} (hb : w2.blocks = w.blocks) (hl : w2.loaded = w.loaded)
    (q : IVec3) :
    WorldPipeline.code_exposed_rule dict w2 q = WorldPipeline.code_exposed_rule dict w q := by
  unfold WorldPipeline.code_exposed_rule WorldPipeline.World.block
  rw [hb, hl]

theorem WorldPipeline.update_step_exposed (dict : Nat → WorldPipeline.BlockDef)
    (w : WorldPipeline.World) (p q : IVec3) :
    (WorldPipeline.update_exposed_step dict w p).exposed q =
      if q = p ∧ (w.block p).isOk
      then WorldPipeline.code_exposed_rule dict w p else w.exposed q := by
  unfold WorldPipeline.update_exposed_step
  cases hw : w.block p with
  | error e => simp [Except.isOk, Except.toBool]
  | ok b =>
    have hb : b = w.blocks p := by
      have hw2 := hw
      unfold WorldPipeline.World.block at hw2
      split_ifs at hw2 <;> simp_all
    rw [hb]
    simp only [WorldPipeline.World.set_is_exposed, WorldPipeline.code_exposed_rule,
      Except.isOk, Except.toBool, and_true]

theorem WorldPipeline.foldl_update_step_exposed (dict : Nat → WorldPipeline.BlockDef)
    (l : List IVec3) (w : WorldPipeline.World) (q : IVec3) :
    (l.foldl (WorldPipeline.update_exposed_step dict) w).exposed q =
      if q ∈ l ∧ (w.block q).isOk
      then WorldPipeline.code_exposed_rule dict w q else w.exposed q := by
  induction l generalizing w with
  | nil => simp
  | cons p l ih =>
    rw [List.foldl_cons, ih, WorldPipeline.update_step_block,
      WorldPipeline.rule_world_congr dict (WorldPipeline.update_step_blocks dict w p)
        (WorldPipeline.update_step_loaded dict w p) q,
      WorldPipeline.update_step_exposed]
    by_cases hqp : q = p
    · subst hqp
      by_cases hok : (w.block q).isOk <;> by_cases hql : q ∈ l <;> simp [hok, hql]
    · by_cases hok : (w.block q).isOk <;> by_cases hql : q ∈ l <;> simp [hok, hql, hqp]

theorem WorldPipeline.update_surrounding_exposed_exposed (dict : Nat → WorldPipeline.BlockDef)
    (w : WorldPipeline.World) (pos q : IVec3) :
    (WorldPipeline.update_surrounding_exposed dict w pos).exposed q =
      if q ∈ WorldPipeline.block_offsets pos ++ [pos] ∧ (w.block q).isOk
      then WorldPipeline.code_exposed_rule dict w q else w.exposed q := by
  unfold WorldPipeline.update_surrounding_exposed
  exact WorldPipeline.foldl_update_step_exposed dict _ w q

/-! ### The generation pipeline: scheduling bounds -/

theorem WorldPipeline.handle_loop_world_length (n : Nat) (st : WorldPipeline.GenState) :
    (WorldPipeline.handle_loop n st).world.length ≤ st.world.length + n := by
  induction n generalizing st with
  | zero => simp [WorldPipeline.handle_loop]
  | succ n ih =>
    cases hpool : st.chunk_task_pool with
    | nil =>
      simp only [WorldPipeline.handle_loop, hpool]
      omega
    | cons r rest =>
      simp only [WorldPipeline.handle_loop, hpool]
      cases hr : r.ready with
      | false =>
        simp only [hr, Bool.not_false, if_true]
        refine le_trans (ih _) ?_
        dsimp only
        omega
      | true =>
        simp only [hr, Bool.not_true, Bool.false_eq_true, if_false]
        by_cases hw : r.pos ∈ st.world
        · rw [if_pos hw]
          refine le_trans (ih _) ?_
          dsimp only
          omega
        · rw [if_neg hw]
          refine le_trans (ih _) ?_
          dsimp only
          simp only [List.length_cons]
          omega

/-! ### List-as-HashSet helpers -/

theorem getElem?_mem {α : Type} {l : List α} {i : Nat} {x : α} (h : l[i]? = some x) :
    x ∈ l := by
  have hi : i < l.length := by
    by_contra hc
    rw [List.getElem?_eq_none (by omega)] at h
    exact Option.noConfusion h
  rw [List.getElem?_eq_getElem hi] at h
  have hmem := List.getElem_mem hi
  rw [Option.some.injEq] at h
  rw [h] at hmem
  exact hmem

theorem mem_hsInsert_of_mem {l : List IVec2} {p : IVec2} (q : IVec2) (h : p ∈ l) :
    p ∈ hsInsert l q := by
  unfold hsInsert
  split
  · exact h
  · exact List.mem_cons_of_mem q h

theorem mem_hsInsert_self (l : List IVec2) (q : IVec2) : q ∈ hsInsert l q := by
  unfold hsInsert
  split
  · assumption
  · exact List.mem_cons_self q l

theorem mem_foldl_hsInsert (S : List IVec2) (l : List IVec2) (p : IVec2) (h : p ∈ S) :
    p ∈ l.foldl hsInsert S := by
  induction l generalizing S with
  | nil => exact h
  | cons a l ih => exact ih (hsInsert S a) (mem_hsInsert_of_mem a h)

theorem mem_foldl_hsInsert_of_mem_list (S : List IVec2) (l : List IVec2) (p : IVec2)
    (h : p ∈ l) : p ∈ l.foldl hsInsert S := by
  induction l generalizing S with
  | nil => cases h
  | cons a l ih =>
    rcases List.mem_cons.mp h with rfl | h2
    · exact mem_foldl_hsInsert (hsInsert S p) l p (mem_hsInsert_self S p)
    · exact ih (hsInsert S a) h2

theorem mem_hsRemove {l : List IVec2} {p q : IVec2} (hp : p ∈ l) (hq : p ≠ q) :
    p ∈ hsRemove l q :=
  List.mem_filter.mpr ⟨hp, by simp [hq]⟩

theorem nodup_triple_iff {α : Type} (A B C : List α) :
    (A ++ B ++ C).Nodup ↔
      A.Nodup ∧ B.Nodup ∧ C.Nodup ∧ A.Disjoint B ∧ A.Disjoint C ∧ B.Disjoint C := by
  simp [List.nodup_append, List.disjoint_append_left]
  tauto

/-! ### The scheduling invariant of the generation pipeline -/

theorem WorldPipeline.positions_in_square_nodup (o : IVec2) (r : Nat) :
    (WorldPipeline.positions_in_square o r).Nodup := by
  unfold WorldPipeline.positions_in_square
  rw [List.nodup_flatMap]
  constructor
  · intro i hi
    refine List.Nodup.map ?_ (List.nodup_range _)
    intro j1 j2 hj
    have h2 := congrArg IVec2.y hj
    simp only [IVec2_add_def] at h2
    omega
  · refine (List.nodup_range _).imp ?_
    intro a b hab v hva hvb
    obtain ⟨j1, hj1, he1⟩ := List.mem_map.mp hva
    obtain ⟨j2, hj2, he2⟩ := List.mem_map.mp hvb
    have h2 := congrArg IVec2.x (he1.trans he2.symm)
    simp only [IVec2_add_def] at h2
    exact hab (by omega)

theorem WorldPipeline.set_ready_map_pos (l : List WorldPipeline.Receiver) (i : Nat) :
    (WorldPipeline.set_ready l i).map WorldPipeline.Receiver.pos =
      l.map WorldPipeline.Receiver.pos := by
  induction l generalizing i with
  | nil => rfl
  | cons r rs ih =>
    cases i with
    | zero => simp [WorldPipeline.set_ready]
    | succ n => simp [WorldPipeline.set_ready, ih]

theorem WorldPipeline.set_ready_pos_mem (l : List WorldPipeline.Receiver) (i : Nat)
    (S : List IVec2) (h : ∀ r ∈ l, r.pos ∈ S) :
    ∀ r ∈ WorldPipeline.set_ready l i, r.pos ∈ S := by
  induction l generalizing i with
  | nil =>
    intro r hr
    simp [WorldPipeline.set_ready] at hr
  | cons a rs ih =>
    cases i with
    | zero =>
      intro r hr
      simp only [WorldPipeline.set_ready] at hr
      rcases List.mem_cons.mp hr with rfl | hr2
      · exact h a (List.mem_cons_self a rs)
      · exact h r (List.mem_cons_of_mem a hr2)
    | succ n =>
      intro r hr
      simp only [WorldPipeline.set_ready] at hr
      rcases List.mem_cons.mp hr with rfl | hr2
      · exact h r (List.mem_cons_self r rs)
      · exact ih n (fun r2 h2 => h r2 (List.mem_cons_of_mem a h2)) r hr2

theorem WorldPipeline.GenInv_init : WorldPipeline.GenInv WorldPipeline.gen_init := by
  constructor
  · simp [WorldPipeline.gen_init]
  · intro r hr
    simp [WorldPipeline.gen_init] at hr

theorem WorldPipeline.GenInv_choose (o : IVec2) (rad : Nat) (st : WorldPipeline.GenState)
    (hq : st.chunks_to_generate = []) (h : WorldPipeline.GenInv st) :
    WorldPipeline.GenInv (WorldPipeline.choose_chunks_to_generate o rad st) := by
  obtain ⟨hn, hs⟩ := h
  rw [hq, List.nil_append, List.nodup_append] at hn
  obtain ⟨hB, hC, hBC⟩ := hn
  constructor
  · dsimp only [WorldPipeline.choose_chunks_to_generate]
    rw [hq, List.nil_append, nodup_triple_iff]
    refine ⟨(WorldPipeline.positions_in_square_nodup o rad).filter _, hB, hC, ?_, ?_, hBC⟩
    · intro p hp hpB
      have hfil := List.of_mem_filter hp
      rw [decide_eq_true_eq] at hfil
      obtain ⟨r2, hr2, hr2p⟩ := List.mem_map.mp hpB
      exact hfil.2 (hr2p ▸ hs r2 hr2)
    · intro p hp hpC
      have hfil := List.of_mem_filter hp
      rw [decide_eq_true_eq] at hfil
      exact hfil.1 hpC
  · intro r hr
    exact hs r hr

theorem WorldPipeline.GenInv_make (st : WorldPipeline.GenState)
    (h : WorldPipeline.GenInv st) : WorldPipeline.GenInv (WorldPipeline.make_chunk_tasks st) := by
  obtain ⟨hn, hs⟩ := h
  rw [nodup_triple_iff] at hn
  obtain ⟨hA, hB, hC, hAB, hAC, hBC⟩ := hn
  constructor
  · dsimp only [WorldPipeline.make_chunk_tasks]
    rw [List.nil_append, List.map_append]
    have hmapmap : (st.chunks_to_generate.map fun p =>
        ({ pos := p, ready := false } : WorldPipeline.Receiver)).map
          WorldPipeline.Receiver.pos = st.chunks_to_generate := by
      rw [List.map_map]
      have hcomp : (WorldPipeline.Receiver.pos ∘ fun p =>
          ({ pos := p, ready := false } : WorldPipeline.Receiver)) = id := rfl
      rw [hcomp, List.map_id]
    rw [hmapmap, List.nodup_append]
    refine ⟨?_, hC, ?_⟩
    · rw [List.nodup_append]
      exact ⟨hB, hA, hAB.symm⟩
    · rw [List.disjoint_append_left]
      exact ⟨hBC, hAC⟩
  · intro r hr
    dsimp only [WorldPipeline.make_chunk_tasks] at hr ⊢
    rcases List.mem_append.mp hr with hr2 | hr2
    · exact mem_foldl_hsInsert _ _ _ (hs r hr2)
    · obtain ⟨p, hp, he⟩ := List.mem_map.mp hr2
      rw [← he]
      exact mem_foldl_hsInsert_of_mem_list _ _ _ hp

theorem WorldPipeline.GenInv_complete (i : Nat) (st : WorldPipeline.GenState)
    (h : WorldPipeline.GenInv st) : WorldPipeline.GenInv (WorldPipeline.task_completes i st) := by
  obtain ⟨hn, hs⟩ := h
  constructor
  · dsimp only [WorldPipeline.task_completes]
    rw [WorldPipeline.set_ready_map_pos]
    exact hn
  · intro r hr
    dsimp only [WorldPipeline.task_completes] at hr ⊢
    exact WorldPipeline.set_ready_pos_mem _ _ _ hs r hr

theorem WorldPipeline.GenInv_handle_loop (n : Nat) (st : WorldPipeline.GenState)
    (h : WorldPipeline.GenInv st) : WorldPipeline.GenInv (WorldPipeline.handle_loop n st) := by
  induction n generalizing st with
  | zero => exact h
  | succ n ih =>
    obtain ⟨hn, hs⟩ := h
    cases hpool : st.chunk_task_pool with
    | nil =>
      simp only [WorldPipeline.handle_loop, hpool]
      exact ⟨hn, hs⟩
    | cons r rest =>
      simp only [WorldPipeline.handle_loop, hpool]
      rw [hpool] at hs
      rw [hpool, List.map_cons, nodup_triple_iff] at hn
      obtain ⟨hA, hB, hC, hAB, hAC, hBC⟩ := hn
      cases hr : r.ready with
      | false =>
        simp only [hr, Bool.not_false, if_true]
        apply ih
        constructor
        · dsimp only
          simp only [List.map_append, List.map_cons, List.map_nil]
          rw [nodup_triple_iff]
          refine ⟨hA, (List.perm_append_singleton r.pos
              (rest.map WorldPipeline.Receiver.pos)).symm.nodup hB, hC, ?_, hAC, ?_⟩
          · rw [List.disjoint_append_right]
            refine ⟨(List.disjoint_cons_right.mp hAB).2, ?_⟩
            intro v hv hvs
            exact (List.disjoint_cons_right.mp hAB).1 ((List.mem_singleton.mp hvs) ▸ hv)
          · rw [List.disjoint_append_left]
            refine ⟨fun v hv hw => hBC (List.mem_cons_of_mem _ hv) hw, ?_⟩
            intro v hvs hw
            exact hBC ((List.mem_singleton.mp hvs) ▸ List.mem_cons_self _ _) hw
        · intro r2 hr2
          dsimp only at hr2 ⊢
          rcases List.mem_append.mp hr2 with hr3 | hr3
          · exact hs r2 (List.mem_cons_of_mem r hr3)
          · exact hs r2 ((List.mem_singleton.mp hr3) ▸ List.mem_cons_self r rest)
      | true =>
        simp only [hr, Bool.not_true, Bool.false_eq_true, if_false]
        have hrw : r.pos ∉ st.world := fun hw => hBC (List.mem_cons_self _ _) hw
        rw [if_neg hrw]
        apply ih
        constructor
        · dsimp only
          rw [nodup_triple_iff]
          refine ⟨hA, (List.nodup_cons.mp hB).2, List.nodup_cons.mpr ⟨hrw, hC⟩,
            (List.disjoint_cons_right.mp hAB).2, ?_, ?_⟩
          · rw [List.disjoint_cons_right]
            exact ⟨(List.disjoint_cons_right.mp hAB).1, hAC⟩
          · rw [List.disjoint_cons_right]
            refine ⟨(List.nodup_cons.mp hB).1, ?_⟩
            exact fun v hv hw => hBC (List.mem_cons_of_mem _ hv) hw
        · intro r2 hr2
          dsimp only at hr2 ⊢
          refine mem_hsRemove (hs r2 (List.mem_cons_of_mem r hr2)) ?_
          intro he
          exact (List.nodup_cons.mp hB).1
            (he ▸ List.mem_map_of_mem WorldPipeline.Receiver.pos hr2)

theorem WorldPipeline.GenInv_reach (st : WorldPipeline.GenState)
    (h : WorldPipeline.GReach st) : WorldPipeline.GenInv st := by
  induction h with
  | init => exact WorldPipeline.GenInv_init
  | choose o r _ hq ih => exact WorldPipeline.GenInv_choose o r _ hq ih
  | make _ ih => exact WorldPipeline.GenInv_make _ ih
  | handle _ ih => exact WorldPipeline.GenInv_handle_loop WorldPipeline.MAX_TASKS_PER_FRAME _ ih
  | complete i _ ih => exact WorldPipeline.GenInv_complete i _ ih

/-! ### The stuck in-flight position of the main.rs loop -/

theorem MainLoop.stuckAt_make (p : IVec2) (radius : Nat) (st : MainLoop.MainState)
    (h : MainLoop.stuckAt p st) : MainLoop.stuckAt p (MainLoop.make_chunk_tasks radius st) := by
  unfold MainLoop.make_chunk_tasks
  generalize WorldPipeline.positions_in_square ⟨0, 0⟩ radius = l
  induction l generalizing st with
  | nil => exact h
  | cons a l ih =>
    rw [List.foldl_cons]
    apply ih
    by_cases hc : a ∈ st.world ∨ a ∈ st.chunks_being_generated
    · rw [if_pos hc]
      exact h
    · rw [if_neg hc]
      obtain ⟨h1, h2⟩ := h
      refine ⟨mem_hsInsert_of_mem _ h1, ?_⟩
      intro t ht
      dsimp only at ht
      rcases List.mem_append.mp ht with ht2 | ht2
      · exact h2 t ht2
      · have he : t = ⟨a, none⟩ := List.mem_singleton.mp ht2
        subst he
        intro hap
        exact hc (Or.inr (by rw [show a = p from hap]; exact h1))

theorem MainLoop.stuckAt_complete (p : IVec2) (i : Nat) (r : MainLoop.TaskResult)
    (st : MainLoop.MainState) (h : MainLoop.stuckAt p st) :
    MainLoop.stuckAt p (MainLoop.task_completes i r st) := by
  obtain ⟨h1, h2⟩ := h
  unfold MainLoop.task_completes
  cases hti : st.tasks[i]? with
  | none => exact ⟨h1, h2⟩
  | some t =>
    dsimp only
    by_cases htr : t.result = none
    · rw [if_pos htr]
      refine ⟨h1, ?_⟩
      intro t2 ht2
      dsimp only at ht2
      rcases List.mem_or_eq_of_mem_set ht2 with ht3 | ht3
      · exact h2 t2 ht3
      · rw [ht3]
        exact h2 t (getElem?_mem hti)
    · rw [if_neg htr]
      exact ⟨h1, h2⟩

theorem MainLoop.stuckAt_handle (p : IVec2) (st : MainLoop.MainState)
    (h : MainLoop.stuckAt p st) : MainLoop.stuckAt p (MainLoop.handle_chunk_tasks st) := by
  obtain ⟨h1, h2⟩ := h
  unfold MainLoop.handle_chunk_tasks
  have key : ∀ (l : List MainLoop.MTask), (∀ t ∈ l, t.pos ≠ p) →
      ∀ acc, MainLoop.stuckAt p acc → MainLoop.stuckAt p (l.foldl MainLoop.handle_one acc) := by
    intro l
    induction l with
    | nil => exact fun _ acc hacc => hacc
    | cons t l ih =>
      intro hl acc hacc
      rw [List.foldl_cons]
      apply ih fun t2 ht2 => hl t2 (List.mem_cons_of_mem t ht2)
      have htp : t.pos ≠ p := hl t (List.mem_cons_self t l)
      obtain ⟨a1, a2⟩ := hacc
      unfold MainLoop.handle_one
      cases hres : t.result with
      | none =>
        refine ⟨a1, ?_⟩
        intro t2 ht2
        dsimp only at ht2
        rcases List.mem_append.mp ht2 with ht3 | ht3
        · exact a2 t2 ht3
        · rw [List.mem_singleton.mp ht3]
          exact htp
      | some tr =>
        cases tr with
        | okSome => exact ⟨mem_hsRemove a1 (Ne.symm htp), a2⟩
        | okNone => exact ⟨a1, a2⟩
        | err => exact ⟨a1, a2⟩
  exact key st.tasks h2 _ ⟨h1, fun t ht => absurd ht (List.not_mem_nil t)⟩

theorem MainLoop.stuckAt_exec (p : IVec2) (st : MainLoop.MainState) (a : MainLoop.MainAction)
    (h : MainLoop.stuckAt p st) : MainLoop.stuckAt p (MainLoop.main_exec st a) := by
  cases a with
  | make radius => exact MainLoop.stuckAt_make p radius st h
  | complete i r => exact MainLoop.stuckAt_complete p i r st h
  | handle => exact MainLoop.stuckAt_handle p st h

theorem MainLoop.stuckAt_foldl (p : IVec2) (acts : List MainLoop.MainAction)
    (st : MainLoop.MainState) (h : MainLoop.stuckAt p st) :
    MainLoop.stuckAt p (acts.foldl MainLoop.main_exec st) := by
  induction acts generalizing st with
  | nil => exact h
  | cons a acts ih => exact ih _ (MainLoop.stuckAt_exec p st a h)

/-! ## Claim theorems -/

/-- C8: for every global block position, also with negative coordinates,
`chunk_to_block_pos (block_to_chunk_pos p) + global_to_local_pos p = p`;
`block_to_chunk_pos` floor-divides (global x = -1 maps to chunk x = -1 and
local x = 15) and the local z equals the global z.  The `Conversion`
helpers in src/terrain/position.rs agree with the `World` versions. -/
theorem c8_coordinate_roundtrip :
    (∀ p : IVec3, Terrain.World.chunk_to_block_pos (Terrain.World.block_to_chunk_pos p) +
        Terrain.World.global_to_local_pos p = p) ∧
    Terrain.World.block_to_chunk_pos ⟨-1, 0, 0⟩ = ⟨-1, 0⟩ ∧
    (Terrain.World.global_to_local_pos ⟨-1, 0, 0⟩).x = 15 ∧
    (∀ p : IVec3, (Terrain.World.global_to_local_pos p).z = p.z) ∧
    (∀ p, Terrain.Conversion.block_to_chunk_pos p = Terrain.World.block_to_chunk_pos p) ∧
    (∀ p, Terrain.Conversion.global_to_local_pos p = Terrain.World.global_to_local_pos p) ∧
    (∀ q, Terrain.Conversion.chunk_to_block_pos q = Terrain.World.chunk_to_block_pos q) := by
  refine ⟨?_, by decide, by decide, fun p => rfl, fun p => rfl, fun p => rfl, fun q => rfl⟩
  intro p
  cases p
  simp only [Terrain.World.chunk_to_block_pos, Terrain.World.block_to_chunk_pos,
    Terrain.World.global_to_local_pos, IVec3_add_def, IVec3.mk.injEq,
    Terrain.CHUNK_WIDTH, Terrain.CHUNK_HEIGHT, Nat.cast_ofNat, ediv_eq_div, emod_eq_mod]
  refine ⟨by omega, by omega, by omega⟩

/-- C9: `World::block` returns `none` exactly when the containing chunk is
absent from the chunk map (never a default block), and returns the stored
block at the converted local position when the chunk is present. -/
theorem c9_world_block_absent_vs_present (w : Terrain.World) (p : IVec3) :
    (Terrain.World.new.block p = none) ∧
    (w.chunk (Terrain.World.block_to_chunk_pos p) = none → w.block p = none) ∧
    (∀ c, w.chunk (Terrain.World.block_to_chunk_pos p) = some c →
      w.block p = some (c.block (Terrain.World.global_to_local_pos p))) := by
  refine ⟨rfl, fun h => ?_, fun c h => ?_⟩
  · unfold Terrain.World.block
    rw [h]
    rfl
  · unfold Terrain.World.block
    rw [h]
    rfl

/-- Witness for C9 at a world holding one chunk at the origin. -/
theorem c9_world_block_witness :
    ((Terrain.World.new.set_chunk (Terrain.Chunk.new ⟨0, 0⟩)).block ⟨1, 2, 3⟩ =
      some ((Terrain.Chunk.new ⟨0, 0⟩).block
        (Terrain.World.global_to_local_pos ⟨1, 2, 3⟩))) ∧
    Terrain.World.new.block ⟨5, -20, 5⟩ = none :=
  ⟨(c9_world_block_absent_vs_present
      (Terrain.World.new.set_chunk (Terrain.Chunk.new ⟨0, 0⟩)) ⟨1, 2, 3⟩).2.2
      (Terrain.Chunk.new ⟨0, 0⟩) rfl,
   (c9_world_block_absent_vs_present Terrain.World.new ⟨5, -20, 5⟩).1⟩

/-- C10: on a well-formed chunk, `set_sky_light(p, level)` stores
`level mod 16`, a subsequent `get_sky_light(p)` returns
`some (level mod 16)`, and the value read at every other in-bounds
position — including the one packed into the other nibble of the same
byte — is unchanged; `set_block_light`/`get_block_light` likewise. -/
theorem c10_light_set_get_frame (c : Terrain.Chunk) (p q : IVec3) (level : Nat)
    (hWF : c.LightWF) (hlevel : level < 256) (hp : Terrain.Chunk.in_bounds p)
    (hq : Terrain.Chunk.in_bounds q) (hne : q ≠ p) :
    (∃ c', c.set_sky_light p level = some c' ∧
      c'.get_sky_light p = some (level % 16) ∧
      c'.get_sky_light q = c.get_sky_light q) ∧
    (∃ c', c.set_block_light p level = some c' ∧
      c'.get_block_light p = some (level % 16) ∧
      c'.get_block_light q = c.get_block_light q) := by
  have hip := Terrain.Chunk.get_index_of_in_bounds hp
  have hiq := Terrain.Chunk.get_index_of_in_bounds hq
  have hii : Terrain.Chunk.flat_index q ≠ Terrain.Chunk.flat_index p :=
    fun h => hne (Terrain.Chunk.flat_index_inj hq hp h)
  constructor
  · unfold Terrain.Chunk.set_sky_light
    rw [hip]
    simp only [Option.map_some']
    refine ⟨_, rfl, ?_, ?_⟩
    · unfold Terrain.Chunk.get_sky_light
      rw [hip]
      simp only [Option.map_some', Option.some.injEq]
      exact (nibble_update_read c.sky_light hWF.1 (Terrain.Chunk.flat_index p)
        (Terrain.Chunk.flat_index q) level hlevel hii _ rfl).1
    · unfold Terrain.Chunk.get_sky_light
      rw [hiq]
      simp only [Option.map_some', Option.some.injEq]
      exact (nibble_update_read c.sky_light hWF.1 (Terrain.Chunk.flat_index p)
        (Terrain.Chunk.flat_index q) level hlevel hii _ rfl).2
  · unfold Terrain.Chunk.set_block_light
    rw [hip]
    simp only [Option.map_some']
    refine ⟨_, rfl, ?_, ?_⟩
    · unfold Terrain.Chunk.get_block_light
      rw [hip]
      simp only [Option.map_some', Option.some.injEq]
      exact (nibble_update_read c.block_light hWF.2 (Terrain.Chunk.flat_index p)
        (Terrain.Chunk.flat_index q) level hlevel hii _ rfl).1
    · unfold Terrain.Chunk.get_block_light
      rw [hiq]
      simp only [Option.map_some', Option.some.injEq]
      exact (nibble_update_read c.block_light hWF.2 (Terrain.Chunk.flat_index p)
        (Terrain.Chunk.flat_index q) level hlevel hii _ rfl).2

/-- Witness for C10 on a fresh chunk, writing level 200 at the origin and
checking the neighbour packed into the same byte. -/
theorem c10_light_witness :
    (Terrain.Chunk.new ⟨0, 0⟩).LightWF ∧ (200 : Nat) < 256 ∧
    ((∃ c', (Terrain.Chunk.new ⟨0, 0⟩).set_sky_light ⟨0, 0, 0⟩ 200 = some c' ∧
      c'.get_sky_light ⟨0, 0, 0⟩ = some (200 % 16) ∧
      c'.get_sky_light ⟨0, 0, 1⟩ = (Terrain.Chunk.new ⟨0, 0⟩).get_sky_light ⟨0, 0, 1⟩) ∧
    (∃ c', (Terrain.Chunk.new ⟨0, 0⟩).set_block_light ⟨0, 0, 0⟩ 200 = some c' ∧
      c'.get_block_light ⟨0, 0, 0⟩ = some (200 % 16) ∧
      c'.get_block_light ⟨0, 0, 1⟩ = (Terrain.Chunk.new ⟨0, 0⟩).get_block_light ⟨0, 0, 1⟩)) :=
  ⟨⟨fun _ => by simp [Terrain.Chunk.new], fun _ => by simp [Terrain.Chunk.new]⟩,
   by decide,
   c10_light_set_get_frame (Terrain.Chunk.new ⟨0, 0⟩) ⟨0, 0, 0⟩ ⟨0, 0, 1⟩ 200
     ⟨fun _ => by simp [Terrain.Chunk.new], fun _ => by simp [Terrain.Chunk.new]⟩
     (by decide) (by decide) (by decide) (by decide)⟩

/-- C1: on a well-formed palette Section, `set_item(p, v)` followed by
`item(p)` returns `v`, and `item(q)` at every other in-bounds position is
unchanged — for every value `v`, including values that append a palette
entry and force a repack to a wider encoding. -/
theorem c1_section_set_item_roundtrip_frame (s : Terrain.Section) (pos q : IVec3) (v : Nat)
    (hWF : s.WF) (hsmall : s.palette.length < 2 ^ 63)
    (hpos : Terrain.Section.pos_in_bounds pos) (hq : Terrain.Section.pos_in_bounds q)
    (hne : q ≠ pos) :
    (s.set_item pos v).item pos = v ∧ (s.set_item pos v).item q = s.item q :=
  ⟨(Terrain.Section.set_item_spec s hWF hsmall pos hpos v).1,
   (Terrain.Section.set_item_spec s hWF hsmall pos hpos v).2.1 q hq hne⟩

/-- Witness for C1: a width-1 section holding the value 2, then writing 3
(which appends a third palette entry and forces a repack from 1 to 2 bits). -/
theorem c1_section_witness :
    ((((Terrain.Section.new 1).set_item ⟨0, 0, 0⟩ 2).set_item ⟨1, 2, 3⟩ 3).item ⟨1, 2, 3⟩ = 3) ∧
    ((((Terrain.Section.new 1).set_item ⟨0, 0, 0⟩ 2).set_item ⟨1, 2, 3⟩ 3).item ⟨0, 0, 0⟩ =
      ((Terrain.Section.new 1).set_item ⟨0, 0, 0⟩ 2).item ⟨0, 0, 0⟩) :=
  c1_section_set_item_roundtrip_frame ((Terrain.Section.new 1).set_item ⟨0, 0, 0⟩ 2)
    ⟨1, 2, 3⟩ ⟨0, 0, 0⟩ 3
    ((Terrain.Section.set_item_spec (Terrain.Section.new 1)
      (Terrain.Section.WF_new 1 (by decide) (by decide)) (by decide)
      ⟨0, 0, 0⟩ (by decide) 2).2.2.1)
    (by decide) (by decide) (by decide) (by decide)

/-- C7 counterexample: write 1 at the origin of a fresh section, then
write it back to 0 — the only ever-written voxel is back at the default,
yet `is_empty` stays `false` because the palette retains the entry 1. -/
theorem c7_is_empty_counterexample :
    ((((Terrain.Section.new 4).set_item ⟨0, 0, 0⟩ 1).set_item ⟨0, 0, 0⟩ 0).item ⟨0, 0, 0⟩ = 0) ∧
    ((((Terrain.Section.new 4).set_item ⟨0, 0, 0⟩ 1).set_item ⟨0, 0, 0⟩ 0).is_empty = false) := by
  constructor <;> rfl

/-- C7 (amended): `is_empty` is `true` on a freshly created Section; once
it is `false` (after any write of a value outside the palette) it stays
`false` forever — also after writing every voxel back to zero — because
palette entries are never removed. -/
theorem c7_is_empty_fresh_and_persistent :
    (∀ b, (Terrain.Section.new b).is_empty = true) ∧
    (∀ (s : Terrain.Section) (pos : IVec3) (v : Nat), 1 ≤ s.palette.length →
      s.is_empty = false → (s.set_item pos v).is_empty = false) := by
  constructor
  · intro b
    rfl
  · intro s pos v hlen hne
    rcases Terrain.Section.set_item_palette s pos v with hsame | happ
    · unfold Terrain.Section.is_empty at *
      rw [hsame]
      exact hne
    · unfold Terrain.Section.is_empty
      rw [happ]
      have hl : (s.palette ++ [v]).length ≠ 1 := by
        simp only [List.length_append, List.length_singleton]
        omega
      rw [beq_eq_false_iff_ne.mpr hl, Bool.false_and]

/-- Witness for C7's persistence half on a section that holds one written
voxel and gets it overwritten with zero. -/
theorem c7_is_empty_witness :
    (1 ≤ ((Terrain.Section.new 4).set_item ⟨0, 0, 0⟩ 1).palette.length) ∧
    (((Terrain.Section.new 4).set_item ⟨0, 0, 0⟩ 1).is_empty = false) ∧
    ((((Terrain.Section.new 4).set_item ⟨0, 0, 0⟩ 1).set_item ⟨0, 0, 0⟩ 0).is_empty = false) :=
  ⟨by decide, by decide,
   c7_is_empty_fresh_and_persistent.2 ((Terrain.Section.new 4).set_item ⟨0, 0, 0⟩ 1)
     ⟨0, 0, 0⟩ 0 (by decide) (by decide)⟩

/-- C4 counterexample: the live flat generator of src/world/block_generator.rs
does not produce the claimed column profile — at (0, 0, 4) it returns dirt,
not grass, and at (1, 0, 0) it returns air, not the floor block. -/
theorem c4_flat_profile_counterexample :
    WorldPipeline.FlatGenerator.choose_block ⟨0, 0, 4⟩ = WorldPipeline.DIRT ∧
    WorldPipeline.DIRT ≠ WorldPipeline.GRASS ∧
    WorldPipeline.FlatGenerator.choose_block ⟨1, 0, 0⟩ = WorldPipeline.AIR ∧
    WorldPipeline.AIR ≠ WorldPipeline.DIRT := by
  refine ⟨rfl, by decide, rfl, by decide⟩

/-- C4 (amended): the terrain_management flat generator has the claimed
column profile (bedrock at z = 0, dirt below z = 4, grass at z = 4, air
above); the pipeline flat generator of src/world/ has its height profile
commented out and instead yields a single dirt column at (x, y) = (0, 0),
so a chunk generated at the origin holds dirt exactly on that column. -/
theorem c4_flat_generator_profile (dict : Nat → WorldPipeline.BlockDef) (pos : IVec3)
    (hpos : WorldPipeline.local_in_bounds pos) :
    (pos.z = 0 → TerrainManagement.FlatGenerator.choose_block pos = Terrain.Block.Bedrock) ∧
    (0 < pos.z → pos.z < 4 →
      TerrainManagement.FlatGenerator.choose_block pos = Terrain.Block.Dirt) ∧
    (pos.z = 4 → TerrainManagement.FlatGenerator.choose_block pos = Terrain.Block.Grass) ∧
    (4 < pos.z → TerrainManagement.FlatGenerator.choose_block pos = Terrain.Block.Air) ∧
    ((WorldPipeline.make_chunk dict WorldPipeline.FlatGenerator.choose_block ⟨0, 0⟩).2.blocks
        pos = if pos.x = 0 ∧ pos.y = 0 then WorldPipeline.DIRT else WorldPipeline.AIR) := by
  refine ⟨?_, ?_, ?_, ?_, ?_⟩
  · intro h0
    unfold TerrainManagement.FlatGenerator.choose_block
    split_ifs <;> first | rfl | omega
  · intro h0 h4
    unfold TerrainManagement.FlatGenerator.choose_block
    split_ifs <;> first | rfl | omega
  · intro h4
    unfold TerrainManagement.FlatGenerator.choose_block
    split_ifs <;> first | rfl | omega
  · intro h4
    unfold TerrainManagement.FlatGenerator.choose_block
    split_ifs <;> first | rfl | omega
  · rw [WorldPipeline.make_chunk_blocks dict _ ⟨0, 0⟩ pos hpos]
    have horigin : WorldPipeline.chunk_to_block_pos ⟨0, 0⟩ + pos = pos := by
      obtain ⟨px, py, pz⟩ := pos
      rw [IVec3_add_def, IVec3.mk.injEq]
      unfold WorldPipeline.chunk_to_block_pos
      refine ⟨?_, ?_, ?_⟩ <;> dsimp only <;> omega
    rw [horigin]
    rfl

/-- C4 witness: the amended profile theorem applied at the in-bounds
position (0, 0, 4). -/
theorem c4_flat_generator_witness :
    WorldPipeline.local_in_bounds ⟨0, 0, 4⟩ ∧
    (((⟨0, 0, 4⟩ : IVec3).z = 0 →
      TerrainManagement.FlatGenerator.choose_block ⟨0, 0, 4⟩ = Terrain.Block.Bedrock) ∧
    (0 < (⟨0, 0, 4⟩ : IVec3).z → (⟨0, 0, 4⟩ : IVec3).z < 4 →
      TerrainManagement.FlatGenerator.choose_block ⟨0, 0, 4⟩ = Terrain.Block.Dirt) ∧
    ((⟨0, 0, 4⟩ : IVec3).z = 4 →
      TerrainManagement.FlatGenerator.choose_block ⟨0, 0, 4⟩ = Terrain.Block.Grass) ∧
    (4 < (⟨0, 0, 4⟩ : IVec3).z →
      TerrainManagement.FlatGenerator.choose_block ⟨0, 0, 4⟩ = Terrain.Block.Air) ∧
    ((WorldPipeline.make_chunk cex_dict WorldPipeline.FlatGenerator.choose_block
        ⟨0, 0⟩).2.blocks ⟨0, 0, 4⟩ =
      if (⟨0, 0, 4⟩ : IVec3).x = 0 ∧ (⟨0, 0, 4⟩ : IVec3).y = 0
      then WorldPipeline.DIRT else WorldPipeline.AIR)) :=
  ⟨by decide, c4_flat_generator_profile cex_dict ⟨0, 0, 4⟩ (by decide)⟩

/-- C5 counterexample: after one scheduling pass of radius 1 on an empty
world, a single `make_chunk_tasks` tick spawns 9 tasks — more than
MAX_TASKS_PER_FRAME — because the spawning step drains the entire queue
with no per-tick bound. -/
theorem c5_unbounded_spawn_counterexample :
    WorldPipeline.MAX_TASKS_PER_FRAME <
      (WorldPipeline.gen_run [WorldPipeline.GenAction.choose ⟨0, 0⟩ 1,
        WorldPipeline.GenAction.make]).chunk_task_pool.length := by decide

/-- C5 (amended): `make_chunk_tasks` spawns one task per queued position
with no per-tick bound (the pool grows by the whole queue length), while
the completion step `handle_chunk_tasks` is bounded: it merges at most
MAX_TASKS_PER_FRAME chunks into the world per tick. -/
theorem c5_backpressure_corrected (st : WorldPipeline.GenState) :
    (WorldPipeline.make_chunk_tasks st).chunk_task_pool.length =
      st.chunk_task_pool.length + st.chunks_to_generate.length ∧
    (WorldPipeline.handle_chunk_tasks st).world.length ≤
      st.world.length + WorldPipeline.MAX_TASKS_PER_FRAME := by
  constructor
  · dsimp only [WorldPipeline.make_chunk_tasks]
    rw [List.length_append, List.length_map]
  · exact WorldPipeline.handle_loop_world_length WorldPipeline.MAX_TASKS_PER_FRAME st

/-- C6: a code bug in src/main.rs `handle_chunk_tasks` — after a task for
chunk (0, 0) completes with `Err`, the handling tick despawns the task but
leaves (0, 0) in `ChunksBeingGenerated` forever: no sequence of further
steps can ever remove it, so the position is never re-requested. -/
theorem c6_failed_task_left_in_flight :
    ((MainLoop.main_run [MainLoop.MainAction.make 0,
        MainLoop.MainAction.complete 0 MainLoop.TaskResult.err,
        MainLoop.MainAction.handle]).chunks_being_generated = [⟨0, 0⟩] ∧
      (MainLoop.main_run [MainLoop.MainAction.make 0,
        MainLoop.MainAction.complete 0 MainLoop.TaskResult.err,
        MainLoop.MainAction.handle]).tasks = []) ∧
    ∀ acts : List MainLoop.MainAction,
      (⟨0, 0⟩ : IVec2) ∈ (acts.foldl MainLoop.main_exec
        (MainLoop.main_run [MainLoop.MainAction.make 0,
          MainLoop.MainAction.complete 0 MainLoop.TaskResult.err,
          MainLoop.MainAction.handle])).chunks_being_generated := by
  refine ⟨⟨by decide, by decide⟩, ?_⟩
  intro acts
  exact (MainLoop.stuckAt_foldl ⟨0, 0⟩ acts _ ⟨by decide, by decide⟩).1

/-- C3 counterexample: two scheduling passes without an intervening
task-spawning tick enqueue the origin twice — `choose_chunks_to_generate`
never consults the queue — and the next `make_chunk_tasks` then spawns
two in-flight tasks for the same chunk position. -/
theorem c3_duplicate_in_flight_counterexample :
    1 < ((WorldPipeline.gen_run [WorldPipeline.GenAction.choose ⟨0, 0⟩ 0,
        WorldPipeline.GenAction.choose ⟨0, 0⟩ 0,
        WorldPipeline.GenAction.make]).chunk_task_pool.countP
          fun r => r.pos == (⟨0, 0⟩ : IVec2)) := by decide

/-- C3 (amended): provided the scheduling step only runs on an empty
queue, every reachable pipeline state keeps the queue, the in-flight task
positions and the world keys mutually disjoint and duplicate-free — in
particular at most one in-flight task exists per chunk position. -/
theorem c3_schedule_invariant_corrected (st : WorldPipeline.GenState)
    (h : WorldPipeline.GReach st) :
    (st.chunks_to_generate ++ st.chunk_task_pool.map WorldPipeline.Receiver.pos ++
      st.world).Nodup ∧
    ∀ p : IVec2, (st.chunk_task_pool.countP fun r => r.pos == p) ≤ 1 := by
  have hinv := WorldPipeline.GenInv_reach st h
  refine ⟨hinv.1, ?_⟩
  intro p
  have hB : (st.chunk_task_pool.map WorldPipeline.Receiver.pos).Nodup :=
    ((nodup_triple_iff _ _ _).mp hinv.1).2.1
  have hcount : (st.chunk_task_pool.countP fun r => r.pos == p) =
      (st.chunk_task_pool.map WorldPipeline.Receiver.pos).count p := by
    rw [List.count, List.countP_map]
    rfl
  rw [hcount]
  exact List.nodup_iff_count_le_one.mp hB p

/-- C3 witness: the invariant theorem applied to the reachable state
obtained by one scheduling pass of radius 1 followed by one spawning
tick. -/
theorem c3_schedule_witness :
    ((WorldPipeline.make_chunk_tasks (WorldPipeline.choose_chunks_to_generate ⟨0, 0⟩ 1
        WorldPipeline.gen_init)).chunks_to_generate ++
      (WorldPipeline.make_chunk_tasks (WorldPipeline.choose_chunks_to_generate ⟨0, 0⟩ 1
        WorldPipeline.gen_init)).chunk_task_pool.map WorldPipeline.Receiver.pos ++
      (WorldPipeline.make_chunk_tasks (WorldPipeline.choose_chunks_to_generate ⟨0, 0⟩ 1
        WorldPipeline.gen_init)).world).Nodup ∧
    ∀ p : IVec2, ((WorldPipeline.make_chunk_tasks (WorldPipeline.choose_chunks_to_generate
        ⟨0, 0⟩ 1 WorldPipeline.gen_init)).chunk_task_pool.countP
          fun r => r.pos == p) ≤ 1 :=
  c3_schedule_invariant_corrected _
    (WorldPipeline.GReach.make (WorldPipeline.GReach.choose ⟨0, 0⟩ 1
      WorldPipeline.GReach.init rfl))

/-- C2 counterexample: with a dictionary holding an invisible opaque block
(id 2) and a visible opaque block (id 1), the voxel at (1, 1, 1) — block 1,
with its (0, 1, 1) neighbour invisible and opaque — is exposed under the
claim's rule (a non-visible neighbour counts) but `update_surrounding_exposed`
computes false, because the code only tests `is_transparent`. -/
theorem c2_exposure_counterexample :
    (WorldPipeline.update_surrounding_exposed cex_dict cex_world ⟨1, 1, 1⟩).exposed
      ⟨1, 1, 1⟩ = false ∧
    WorldPipeline.spec_exposed_rule cex_dict cex_world ⟨1, 1, 1⟩ = true := by
  refine ⟨by decide, by decide⟩

/-- C2 (amended): both exposure paths compute visibility AND the existence
of a transparent in-bounds axis neighbour (the claim's "or non-visible"
disjunct is absent from the code): every in-bounds voxel of a generated
chunk gets `code_exposed_rule_chunk`, and after an in-place edit at any
global position every refreshed voxel — the edited position and its axis
neighbours whose read succeeds — gets `code_exposed_rule`, every other
voxel keeping its flag; unloaded neighbours do not count. -/
theorem c2_exposure_rule_corrected (dict : Nat → WorldPipeline.BlockDef) (g : IVec3 → Nat)
    (cp : IVec2) (w : WorldPipeline.World) (pos q : IVec3) :
    (WorldPipeline.local_in_bounds q →
      (WorldPipeline.make_chunk dict g cp).2.exposed q =
        WorldPipeline.code_exposed_rule_chunk dict (WorldPipeline.make_chunk dict g cp).2 q) ∧
    ((WorldPipeline.update_surrounding_exposed dict w pos).exposed q =
      if q ∈ WorldPipeline.block_offsets pos ++ [pos] ∧ (w.block q).isOk = true
      then WorldPipeline.code_exposed_rule dict w q else w.exposed q) := by
  constructor
  · intro hq
    exact WorldPipeline.make_chunk_exposed dict g cp q hq
  · rw [WorldPipeline.update_surrounding_exposed_exposed]

/-- C2 witness: the corrected exposure theorem applied at position
(1, 1, 1) of the counterexample dictionary and world, with the in-bounds
antecedent of the generation conjunct discharged there. -/
theorem c2_exposure_witness :
    ((WorldPipeline.make_chunk cex_dict WorldPipeline.FlatGenerator.choose_block
        ⟨0, 0⟩).2.exposed ⟨1, 1, 1⟩ =
      WorldPipeline.code_exposed_rule_chunk cex_dict
        (WorldPipeline.make_chunk cex_dict WorldPipeline.FlatGenerator.choose_block
          ⟨0, 0⟩).2 ⟨1, 1, 1⟩) ∧
    ((WorldPipeline.update_surrounding_exposed cex_dict cex_world ⟨1, 1, 1⟩).exposed
        ⟨1, 1, 1⟩ =
      if (⟨1, 1, 1⟩ : IVec3) ∈ WorldPipeline.block_offsets ⟨1, 1, 1⟩ ++ [⟨1, 1, 1⟩] ∧
          (cex_world.block ⟨1, 1, 1⟩).isOk = true
      then WorldPipeline.code_exposed_rule cex_dict cex_world ⟨1, 1, 1⟩
      else cex_world.exposed ⟨1, 1, 1⟩) :=
  ⟨(c2_exposure_rule_corrected cex_dict WorldPipeline.FlatGenerator.choose_block ⟨0, 0⟩
      cex_world ⟨1, 1, 1⟩ ⟨1, 1, 1⟩).1 (by decide),
   (c2_exposure_rule_corrected cex_dict WorldPipeline.FlatGenerator.choose_block ⟨0, 0⟩
      cex_world ⟨1, 1, 1⟩ ⟨1, 1, 1⟩).2⟩

end Floralcraft
